import Mathlib

/-!
# Verification of the restaurant matching core (src/app.py)

A shallow embedding of the requirement/offering flattening and multi-level
scoring engine of `src/app.py`, together with the per-venue best-candidate
reduction and the item popularity analyzer, and proofs of the behavioural
claims made by the specification.

Modelling conventions:
* Python `dict`s are insertion-ordered association lists whose keys are
  unique; loops populating a `defaultdict` are modelled by the closed form
  of the accumulated value (a filtered sum), which is what the loop computes.
* Python integers are `Int`; quantities that may be `int` or `float` in the
  analyzer are `ℚ`; all ratio arithmetic is exact rational arithmetic
  (the source uses IEEE doubles; every concrete value appearing in a theorem
  below is exactly representable, so the two agree there).
* The composite flat key `f"{cat}|{cuisine}|{subcat}|{item}"` (line 364) and
  its decomposition `key.split('|')` (line 396) are modelled by the 4-tuple
  `FlatKey`; the `Flatten` section at the end studies the join/split pair
  itself on character lists and settles when the two views coincide.
-/

namespace App

/-- A flattened item key: the 4-tuple (category, cuisine, subcategory, item)
that the source joins into one composite string (src/app.py line 364) and
splits back apart (line 396). -/
structure FlatKey where
  category : String
  cuisine : String
  subcategory : String
  item : String
  deriving DecidableEq, Repr

/-- A flattened mapping from composite key to count: a Python dict, modelled
as an insertion-ordered association list. -/
abbrev FlatMap := List (FlatKey × Int)

/-- `flat_restaurant.get(key, 0)` (src/app.py line 394): the quantity stored
at a key, `0` when the key is absent. -/
def getOff (off : FlatMap) (k : FlatKey) : Int :=
  match off with
  | [] => 0
  | p :: rest => if p.1 = k then p.2 else getOff rest k

/-- The invariant enjoyed by every mapping produced by flattening: keys are
unique (they index a Python dict) and every stored count is positive (the
`count > 0` filters at src/app.py lines 363 and 378). -/
def IsFlatMap (m : FlatMap) : Prop :=
  (m.map Prod.fst).Nodup ∧ ∀ p ∈ m, 0 < p.2

/-- Per-item fulfilment ratio `item_match` (src/app.py lines 398-403): `1`
when the offering covers the request, otherwise `rest_count / user_count`,
guarded to `0` when `user_count` is not positive. -/
def item_match (rest_count user_count : Int) : ℚ :=
  if user_count ≤ rest_count then 1
  else if 0 < user_count then (rest_count : ℚ) / (user_count : ℚ) else 0

/-- `matched_items` accumulated by the loop at src/app.py lines 393-402:
each key contributes `user_count` when covered and `rest_count` otherwise,
i.e. `min rest_count user_count`. -/
def matched_items (flat_user_req off : FlatMap) : Int :=
  (flat_user_req.map (fun p => min (getOff off p.1) p.2)).sum

/-- `overall_match` (src/app.py line 472): `matched_items / total_user_items`
with an explicit guard for a non-positive total. -/
def overall_match (flat_user_req off : FlatMap) (total_user_items : Int) : ℚ :=
  if 0 < total_user_items then
    (matched_items flat_user_req off : ℚ) / (total_user_items : ℚ)
  else 0

/-- Bucket selector for a top-level category aggregation key (the plain
`cat_name` key of src/app.py line 418). -/
def catSel (c : String) (k : FlatKey) : Bool := k.category = c

/-- Bucket selector for a `category|cuisine` aggregation key
(src/app.py line 423). -/
def cuiSel (c q : String) (k : FlatKey) : Bool := k.category = c ∧ k.cuisine = q

/-- Bucket selector for a `category|cuisine|subcategory` aggregation key
(src/app.py line 428). -/
def subSel (c q s : String) (k : FlatKey) : Bool :=
  k.category = c ∧ k.cuisine = q ∧ k.subcategory = s

/-- Final value of `category_totals[key]` for an aggregation bucket: the
requirement quantities accumulated at lines 419, 424 and 429 of src/app.py. -/
def bucketTotal (flat_user_req : FlatMap) (sel : FlatKey → Bool) : Int :=
  ((flat_user_req.filter (fun p => sel p.1)).map Prod.snd).sum

/-- Value of `category_matches[key]` before normalisation: the weighted
contributions `item_match * user_count` accumulated at lines 421, 426 and 431
of src/app.py. -/
def bucketMatchSum (flat_user_req off : FlatMap) (sel : FlatKey → Bool) : ℚ :=
  ((flat_user_req.filter (fun p => sel p.1)).map
    (fun p => item_match (getOff off p.1) p.2 * (p.2 : ℚ))).sum

/-- Final value of `category_matches[key]`: the sum above divided by the
bucket weight when that weight is positive (src/app.py lines 452-454). -/
def bucketRatio (flat_user_req off : FlatMap) (sel : FlatKey → Bool) : ℚ :=
  if 0 < bucketTotal flat_user_req sel then
    bucketMatchSum flat_user_req off sel / (bucketTotal flat_user_req sel : ℚ)
  else bucketMatchSum flat_user_req off sel

/-- Final value of `category_restaurant_totals[key]` after both loops of
src/app.py: offering quantities looked up at every requirement key
(lines 420, 425, 430) plus offering entries whose key carries no
requirement (lines 433-450). -/
def bucketRestTotal (flat_user_req off : FlatMap) (sel : FlatKey → Bool) : Int :=
  ((flat_user_req.filter (fun p => sel p.1)).map (fun p => getOff off p.1)).sum
    + ((off.filter (fun p =>
        sel p.1 ∧ p.1 ∉ flat_user_req.map Prod.fst ∧ 0 < p.2)).map Prod.snd).sum

/-- One entry of `unmet_requirements` (src/app.py lines 406-416). -/
structure UnmetRequirement where
  category : String
  cuisine : String
  subcategory : String
  item_type : String
  requested : Int
  available : Int
  shortfall : Int
  message : String
  deriving DecidableEq, Repr

/-- The f-string of src/app.py line 415. -/
def unmet_message (item_type subcat_name : String) (user_count rest_count : Int) :
    String :=
  s!"Insufficient {item_type} in {subcat_name}: need {user_count}, have {rest_count}"

/-- The `unmet_requirements` list built by the loop at src/app.py
lines 393-416: one item-level entry per requirement key whose offering
quantity falls short, in requirement order. -/
def unmet_requirements (flat_user_req off : FlatMap) : List UnmetRequirement :=
  flat_user_req.filterMap (fun p =>
    let rest_count := getOff off p.1
    if rest_count < p.2 then
      some ⟨p.1.category, p.1.cuisine, p.1.subcategory, p.1.item, p.2, rest_count,
            p.2 - rest_count, unmet_message p.1.item p.1.subcategory p.2 rest_count⟩
    else none)

/-- Round to the nearest integer, ties to even: the rounding mode of Python
`round` (the source applies it to floats; the model applies it to the exact
rational). -/
def roundHalfEven (q : ℚ) : Int :=
  if q - (⌊q⌋ : ℚ) < 1/2 then ⌊q⌋
  else if (1 : ℚ)/2 < q - (⌊q⌋ : ℚ) then ⌊q⌋ + 1
  else if ⌊q⌋ % 2 = 0 then ⌊q⌋ else ⌊q⌋ + 1

/-- Python `round(x, 2)`. -/
def round2 (q : ℚ) : ℚ := (roundHalfEven (q * 100) : ℚ) / 100

/-- One entry of `over_100_categories` (src/app.py lines 464-470). -/
structure OverFulfillment where
  category_name : String
  user_requested : Int
  restaurant_offers : Int
  match_percentage : ℚ
  additional_items : Int
  deriving DecidableEq, Repr

/-- First-occurrence deduplication: the key iteration order of a Python dict
populated by repeated writes. -/
def dedupFirst {α : Type} [DecidableEq α] : List α → List α
  | [] => []
  | x :: xs => x :: (dedupFirst xs).filter (fun y => y ≠ x)

/-- The bar-free keys of `category_totals`, i.e. the top-level category names
of the requirement in first-occurrence order (src/app.py lines 456-457). -/
def reqCategories (flat_user_req : FlatMap) : List String :=
  dedupFirst (flat_user_req.map (fun p => p.1.category))

/-- The over-fulfilment pass (src/app.py lines 456-470): for every top-level
category of the requirement whose offered total strictly exceeds a positive
requested total, an `OverFulfillment` entry. -/
def over_100_categories (flat_user_req off : FlatMap) :
    List (String × OverFulfillment) :=
  (reqCategories flat_user_req).filterMap (fun c =>
    let user_total := bucketTotal flat_user_req (catSel c)
    let rest_total := bucketRestTotal flat_user_req off (catSel c)
    if 0 < user_total ∧ user_total < rest_total then
      some (c, ⟨c, user_total, rest_total,
        round2 ((rest_total : ℚ) / (user_total : ℚ) * 100), rest_total - user_total⟩)
    else none)

/-- An aggregation key of the `category_matches` dict: the code uses the
strings `cat`, `cat|cuisine` and `cat|cuisine|subcat`; under the bar-free
naming established in the `Flatten` section these three string shapes are
exactly the three constructors below. -/
inductive AggKey where
  | cat (category : String)
  | cui (category cuisine : String)
  | sub (category cuisine subcategory : String)
  deriving DecidableEq, Repr

/-- The bucket selected by an aggregation key. -/
def AggKey.sel : AggKey → FlatKey → Bool
  | .cat c => catSel c
  | .cui c q => cuiSel c q
  | .sub c q s => subSel c q s

/-- The keys inserted into `category_matches`, in first-occurrence order:
each requirement key inserts its three prefixes (src/app.py
lines 418-431). -/
def aggKeysOf (flat_user_req : FlatMap) : List AggKey :=
  dedupFirst (flat_user_req.flatMap (fun p =>
    [AggKey.cat p.1.category,
     AggKey.cui p.1.category p.1.cuisine,
     AggKey.sub p.1.category p.1.cuisine p.1.subcategory]))

/-- The four values returned by `calculate_match` (src/app.py line 474). -/
structure CalculateMatchResult where
  overall_match : ℚ
  category_matches : List (AggKey × ℚ)
  unmet_requirements : List UnmetRequirement
  over_100_categories : List (String × OverFulfillment)
  deriving DecidableEq, Repr

/-- `calculate_match` (src/app.py lines 384-474), assembled from the closed
forms of its loop accumulators. -/
def calculate_match (flat_user_req off : FlatMap) (total_user_items : Int) :
    CalculateMatchResult :=
  ⟨overall_match flat_user_req off total_user_items,
   (aggKeysOf flat_user_req).map
     (fun a => (a, bucketRatio flat_user_req off a.sel)),
   unmet_requirements flat_user_req off,
   over_100_categories flat_user_req off⟩

/-- `Subcategory` (src/app.py line 281): a name and a dict item-name → count. -/
structure Subcategory where
  name : String
  items : List (String × Int)

/-- `Cuisine` (src/app.py line 286). -/
structure Cuisine where
  name : String
  subcategories : List (String × Subcategory)

/-- `Category` (src/app.py line 292). -/
structure Category where
  name : String
  cuisines : List (String × Cuisine)

/-- `UserRequirement` (src/app.py line 297). -/
structure UserRequirement where
  categories : List (String × Category)

/-- `RestaurantPackage` (src/app.py line 301). -/
structure RestaurantPackage where
  id : String
  name : String
  categories : List (String × Category)
  price : ℚ
  rating : ℚ
  package_id : String
  venue_id : String

/-- `flatten_requirements` (src/app.py lines 354-368): the flat mapping of
all strictly positive item counts keyed by their path, together with their
running total. -/
def flatten_requirements (user_req : UserRequirement) : FlatMap × Int :=
  let flat := user_req.categories.flatMap (fun cp =>
    cp.2.cuisines.flatMap (fun qp =>
      qp.2.subcategories.flatMap (fun sp =>
        sp.2.items.filterMap (fun ip =>
          if 0 < ip.2 then some (⟨cp.1, qp.1, sp.1, ip.1⟩, ip.2) else none))))
  (flat, (flat.map Prod.snd).sum)

/-- `flatten_restaurant` (src/app.py lines 370-382): same traversal, no
total. -/
def flatten_restaurant (restaurant : RestaurantPackage) : FlatMap :=
  restaurant.categories.flatMap (fun cp =>
    cp.2.cuisines.flatMap (fun qp =>
      qp.2.subcategories.flatMap (fun sp =>
        sp.2.items.filterMap (fun ip =>
          if 0 < ip.2 then some (⟨cp.1, qp.1, sp.1, ip.1⟩, ip.2) else none))))

/-- `MatchResult` (src/app.py line 312); the service-match field is outside
the scored core (spec §1) and defaults to a constant, so it is omitted. -/
structure MatchResult where
  restaurant_id : String
  restaurant_name : String
  overall_match : ℚ
  category_matches : List (AggKey × ℚ)
  unmet_requirements : List UnmetRequirement
  price : ℚ
  rating : ℚ
  package_id : String
  venue_id : String
  over_100_categories : List (String × OverFulfillment)
  deriving DecidableEq, Repr

/-- One scored triple `(overall_match, restaurant.id, match_result)` as
appended to `all_matches` (src/app.py lines 482-504). -/
def match_triple (fr : FlatMap × Int) (restaurant : RestaurantPackage) :
    ℚ × String × MatchResult :=
  let m := calculate_match fr.1 (flatten_restaurant restaurant) fr.2
  (m.overall_match, restaurant.id,
    (⟨restaurant.id, restaurant.name, m.overall_match, m.category_matches,
      m.unmet_requirements, restaurant.price, restaurant.rating,
      restaurant.package_id, restaurant.venue_id,
      m.over_100_categories⟩ : MatchResult))

/-- `all_matches` (src/app.py lines 480-504): the per-package triples in the
order the packages were supplied. -/
def all_matches (user_req : UserRequirement)
    (restaurant_packages : List RestaurantPackage) :
    List (ℚ × String × MatchResult) :=
  restaurant_packages.map (match_triple (flatten_requirements user_req))

/-- `score_restaurants` (src/app.py lines 476-511): flatten the requirement
once, score every package, then sort the triples on the first component,
descending.  Python's `sorted` with `key=lambda x: x[0]` and `reverse=True`
is the stable descending sort by that key, which is `List.insertionSort`
with `b.1 ≤ a.1`. -/
def score_restaurants (user_req : UserRequirement)
    (restaurant_packages : List RestaurantPackage) : List MatchResult :=
  ((all_matches user_req restaurant_packages).insertionSort
    (fun a b => b.1 ≤ a.1)).map (fun t => t.2.2)

/-- The `simplified_result` dict built at src/app.py lines 1489-1500 (minus
the service-match fields, which are outside the scored core per spec §1). -/
structure SimplifiedResult where
  variant_id : String
  variant_name : String
  match_percentage : ℚ
  price : ℚ
  unmet_requirements : List UnmetRequirement
  over_100_categories : List (String × OverFulfillment)
  package_id : String
  venue_id : String
  deriving DecidableEq, Repr

/-- `match_percentage = round(result.overall_match * 100, 2)`
(src/app.py line 1471). -/
def match_percentage_of (r : MatchResult) : ℚ := round2 (r.overall_match * 100)

/-- One simplified record (src/app.py lines 1489-1500). -/
def simplified_of (r : MatchResult) : SimplifiedResult :=
  ⟨r.restaurant_id, r.restaurant_name, match_percentage_of r, r.price,
   r.unmet_requirements, r.over_100_categories, r.package_id, r.venue_id⟩

/-- `simplified_results` (src/app.py line 1502): every match result, in
ranked order. -/
def simplified_results (match_results : List MatchResult) : List SimplifiedResult :=
  match_results.map simplified_of

/-- Append a record to its venue's group, keeping the first-occurrence order
of venue keys (the dict update of src/app.py lines 1505-1508). -/
def pushVenue (groups : List (String × List MatchResult)) (r : MatchResult) :
    List (String × List MatchResult) :=
  match groups with
  | [] => [(r.venue_id, [r])]
  | g :: gs =>
    if g.1 = r.venue_id then (g.1, g.2 ++ [r]) :: gs else g :: pushVenue gs r

/-- `venue_heaps` after the push loop (src/app.py lines 1504-1508): records
grouped by venue id; records with an empty venue id are never pushed. -/
def venue_heaps (match_results : List MatchResult) :
    List (String × List MatchResult) :=
  match_results.foldl
    (fun gs r => if r.venue_id = "" then gs else pushVenue gs r) []

/-- The strict order of the pushed heap tuples
`(-match_percentage, restaurant_id, simplified_result)`: Python compares them
lexicographically, so a greater match percentage wins and a percentage tie is
broken by the smaller `restaurant_id`. -/
def heapLt (a b : MatchResult) : Prop :=
  match_percentage_of b < match_percentage_of a ∨
    (match_percentage_of a = match_percentage_of b ∧
      a.restaurant_id < b.restaurant_id)

instance (a b : MatchResult) : Decidable (heapLt a b) := by
  unfold heapLt; infer_instance

/-- `heapq.heappush` for every record followed by a single `heappop`
(src/app.py lines 1508 and 1514) returns the minimum of the pushed tuples:
the record that `heapLt`-beats every other, the earlier-pushed record being
kept when both compared components tie. -/
def heapBest : List MatchResult → Option MatchResult
  | [] => none
  | r :: rs =>
    match heapBest rs with
    | none => some r
    | some b => if heapLt b r then some b else some r

/-- One entry of `venue_matches` (src/app.py lines 1516-1522, minus the
service percentage). -/
structure VenueMatch where
  venue_id : String
  match_percentage : ℚ
  best_variant_id : String
  best_variant_name : String
  deriving DecidableEq, Repr

/-- `venue_matches` (src/app.py lines 1510-1524): the best record of every
venue group, sorted by match percentage, descending and stable.  The
percentage stored is the one carried by the popped record (re-rounding at
line 1518 is the identity on an already rounded value). -/
def venue_matches (match_results : List MatchResult) : List VenueMatch :=
  let pre := (venue_heaps match_results).filterMap (fun g =>
    (heapBest g.2).map (fun b =>
      (⟨g.1, match_percentage_of b, b.restaurant_id,
        b.restaurant_name⟩ : VenueMatch)))
  pre.insertionSort (fun a b => b.match_percentage ≤ a.match_percentage)

lemma pushVenue_keys (gs : List (String × List MatchResult))
    (r : MatchResult) :
    (pushVenue gs r).map Prod.fst =
      if r.venue_id ∈ gs.map Prod.fst then gs.map Prod.fst
      else gs.map Prod.fst ++ [r.venue_id] := by
  induction gs with
  | nil => simp [pushVenue]
  | cons g gs' ih =>
    simp only [pushVenue]
    by_cases hg : g.1 = r.venue_id
    · rw [if_pos hg]
      simp [hg]
    · rw [if_neg hg]
      simp only [List.map_cons, List.mem_cons, ih]
      by_cases hmem : r.venue_id ∈ gs'.map Prod.fst
      · rw [if_pos hmem, if_pos (Or.inr hmem)]
      · rw [if_neg hmem, if_neg (by tauto)]
        simp

lemma pushVenue_entries {gs : List (String × List MatchResult)}
    {seen : List MatchResult} (r : MatchResult) (hr : r.venue_id ≠ "")
    (hnd : (gs.map Prod.fst).Nodup)
    (hent : ∀ p ∈ gs, p.1 ≠ "" ∧
      p.2 = seen.filter (fun x => x.venue_id = p.1))
    (hmiss : r.venue_id ∉ gs.map Prod.fst →
      seen.filter (fun x => x.venue_id = r.venue_id) = []) :
    ∀ p ∈ pushVenue gs r, p.1 ≠ "" ∧
      p.2 = (seen ++ [r]).filter (fun x => x.venue_id = p.1) := by
  induction gs with
  | nil =>
    intro p hp
    simp only [pushVenue, List.mem_singleton] at hp
    subst hp
    refine ⟨hr, ?_⟩
    rw [List.filter_append, hmiss (by simp)]
    simp
  | cons g gs' ih =>
    intro p hp
    simp only [pushVenue] at hp
    simp only [List.map_cons, List.nodup_cons] at hnd
    by_cases hg : g.1 = r.venue_id
    · rw [if_pos hg] at hp
      rcases List.mem_cons.1 hp with rfl | hp'
      · refine ⟨hg ▸ hr, ?_⟩
        rw [List.filter_append, ← (hent g (by simp)).2]
        simp [hg]
      · obtain ⟨hne, hfil⟩ := hent p (by simp [hp'])
        refine ⟨hne, ?_⟩
        rw [List.filter_append, ← hfil]
        have hpr : r.venue_id ≠ p.1 := by
          rw [← hg]
          intro hq
          exact hnd.1 (hq ▸ List.mem_map.2 ⟨p, hp', rfl⟩)
        simp [hpr]
    · rw [if_neg hg] at hp
      rcases List.mem_cons.1 hp with rfl | hp'
      · obtain ⟨hne, hfil⟩ := hent p (by simp)
        refine ⟨hne, ?_⟩
        rw [List.filter_append, ← hfil]
        have hpr : r.venue_id ≠ p.1 := fun hq => hg hq.symm
        simp [hpr]
      · refine ih hnd.2 (fun q hq => hent q (by simp [hq])) ?_ p hp'
        intro hq
        apply hmiss
        simp only [List.map_cons, List.mem_cons]
        push_neg
        exact ⟨fun h => hg h.symm, hq⟩

lemma pushVenue_missing {gs : List (String × List MatchResult)}
    {seen : List MatchResult} (r : MatchResult)
    (hmiss : ∀ v : String, v ≠ "" → v ∉ gs.map Prod.fst →
      seen.filter (fun x => x.venue_id = v) = []) :
    ∀ v : String, v ≠ "" → v ∉ (pushVenue gs r).map Prod.fst →
      (seen ++ [r]).filter (fun x => x.venue_id = v) = [] := by
  intro v hv hvmem
  rw [pushVenue_keys] at hvmem
  have hvgs : v ∉ gs.map Prod.fst := by
    intro h
    apply hvmem
    split <;> simp [h]
  have hvr : v ≠ r.venue_id := by
    intro h
    subst h
    apply hvmem
    split
    · assumption
    · simp
  have hrv : r.venue_id ≠ v := fun h => hvr h.symm
  rw [List.filter_append, hmiss v hv hvgs]
  simp [hrv]

lemma pushVenue_nodup {gs : List (String × List MatchResult)}
    (r : MatchResult) (hnd : (gs.map Prod.fst).Nodup) :
    ((pushVenue gs r).map Prod.fst).Nodup := by
  rw [pushVenue_keys]
  split
  · exact hnd
  · simp only [List.nodup_append, List.nodup_singleton]
    exact ⟨hnd, by simpa using ‹r.venue_id ∉ gs.map Prod.fst›⟩

/-- The grouping invariant of the `venue_heaps` loop: unique venue keys,
each group holding exactly the already-seen records of its (non-empty)
venue. -/
lemma venue_heaps_inv (rs : List MatchResult) :
    ∀ (gs : List (String × List MatchResult)) (seen : List MatchResult),
      (gs.map Prod.fst).Nodup →
      (∀ p ∈ gs, p.1 ≠ "" ∧
        p.2 = seen.filter (fun x => x.venue_id = p.1)) →
      (∀ v : String, v ≠ "" → v ∉ gs.map Prod.fst →
        seen.filter (fun x => x.venue_id = v) = []) →
      (((rs.foldl (fun gs r =>
          if r.venue_id = "" then gs else pushVenue gs r) gs).map
            Prod.fst).Nodup ∧
        (∀ p ∈ rs.foldl (fun gs r =>
            if r.venue_id = "" then gs else pushVenue gs r) gs,
          p.1 ≠ "" ∧
          p.2 = (seen ++ rs).filter (fun x => x.venue_id = p.1))) := by
  induction rs with
  | nil =>
    intro gs seen h1 h2 _
    simp only [List.foldl_nil, List.append_nil]
    exact ⟨h1, h2⟩
  | cons r rs' ih =>
    intro gs seen h1 h2 h3
    simp only [List.foldl_cons]
    by_cases hr : r.venue_id = ""
    · rw [if_pos hr]
      have hseen : ∀ p ∈ gs, p.1 ≠ "" ∧
          p.2 = (seen ++ [r]).filter (fun x => x.venue_id = p.1) := by
        intro p hp
        obtain ⟨hne, hfil⟩ := h2 p hp
        refine ⟨hne, ?_⟩
        rw [List.filter_append, ← hfil]
        have : r.venue_id ≠ p.1 := fun hq => hne (hq ▸ hr)
        simp [this]
      have hmiss : ∀ v : String, v ≠ "" → v ∉ gs.map Prod.fst →
          (seen ++ [r]).filter (fun x => x.venue_id = v) = [] := by
        intro v hv hvm
        rw [List.filter_append, h3 v hv hvm]
        have : r.venue_id ≠ v := fun hq => hv (hq ▸ hr)
        simp [this]
      have := ih gs (seen ++ [r]) h1 hseen hmiss
      simpa using this
    · rw [if_neg hr]
      have := ih (pushVenue gs r) (seen ++ [r]) (pushVenue_nodup r h1)
        (pushVenue_entries r hr h1 h2 (fun hm => h3 r.venue_id hr hm))
        (pushVenue_missing r h3)
      simpa using this

lemma venue_heaps_spec (rs : List MatchResult) :
    ((venue_heaps rs).map Prod.fst).Nodup ∧
      ∀ p ∈ venue_heaps rs, p.1 ≠ "" ∧
        p.2 = rs.filter (fun x => x.venue_id = p.1) := by
  have := venue_heaps_inv rs [] [] (by simp) (by simp) (by simp)
  simpa [venue_heaps] using this

lemma not_heapLt_iff {x y : MatchResult} :
    ¬ heapLt x y ↔
      (match_percentage_of x ≤ match_percentage_of y ∧
        (match_percentage_of x = match_percentage_of y →
          y.restaurant_id ≤ x.restaurant_id)) := by
  unfold heapLt
  push_neg
  rfl

lemma heapBest_cons_isSome (y : MatchResult) (ys : List MatchResult) :
    (heapBest (y :: ys)).isSome := by
  simp only [heapBest]
  rcases heapBest ys with _ | b
  · rfl
  · dsimp only
    split_ifs <;> rfl

lemma heapBest_mem {g : List MatchResult} {b : MatchResult}
    (h : heapBest g = some b) : b ∈ g := by
  induction g generalizing b with
  | nil => cases h
  | cons r rs ih =>
    simp only [heapBest] at h
    rcases hb : heapBest rs with _ | b'
    · rw [hb] at h
      cases h
      exact List.mem_cons_self r rs
    · rw [hb] at h
      dsimp only at h
      split_ifs at h with hlt
      · cases h
        exact List.mem_cons_of_mem r (ih hb)
      · cases h
        exact List.mem_cons_self r rs

lemma heapBest_not_beaten {g : List MatchResult} {b : MatchResult}
    (h : heapBest g = some b) : ∀ r ∈ g, ¬ heapLt r b := by
  induction g generalizing b with
  | nil => cases h
  | cons r rs ih =>
    simp only [heapBest] at h
    rcases hb : heapBest rs with _ | b'
    · rw [hb] at h
      cases h
      intro x hx
      rcases List.mem_cons.1 hx with rfl | hx'
      · rw [not_heapLt_iff]
        exact ⟨le_refl _, fun _ => le_refl _⟩
      · cases rs with
        | nil => cases hx'
        | cons y ys =>
          have hs := heapBest_cons_isSome y ys
          rw [hb] at hs
          cases hs
    · rw [hb] at h
      dsimp only at h
      split_ifs at h with hlt
      · cases h
        intro x hx
        rcases List.mem_cons.1 hx with rfl | hx'
        · rw [not_heapLt_iff]
          rcases hlt with h1 | ⟨h1e, h1s⟩
          · exact ⟨h1.le, fun he => absurd (he ▸ h1) (lt_irrefl _)⟩
          · exact ⟨h1e.symm.le, fun _ => h1s.le⟩
        · exact ih hb x hx'
      · cases h
        intro x hx
        rcases List.mem_cons.1 hx with rfl | hx'
        · rw [not_heapLt_iff]
          exact ⟨le_refl _, fun _ => le_refl _⟩
        · have hxb := not_heapLt_iff.1 (ih hb x hx')
          have hbr := not_heapLt_iff.1 hlt
          rw [not_heapLt_iff]
          refine ⟨hxb.1.trans hbr.1, fun he => ?_⟩
          have hbx : match_percentage_of b' ≤ match_percentage_of x := by
            rw [he]
            exact hbr.1
          have hrb : match_percentage_of r ≤ match_percentage_of b' := by
            rw [← he]
            exact hxb.1
          have he1 : match_percentage_of x = match_percentage_of b' :=
            le_antisymm hxb.1 hbx
          have he2 : match_percentage_of b' = match_percentage_of r :=
            le_antisymm hbr.1 hrb
          exact (hbr.2 he2).trans (hxb.2 he1)

lemma mem_venue_matches {rs : List MatchResult} {vm : VenueMatch} :
    vm ∈ venue_matches rs ↔
      ∃ g ∈ venue_heaps rs, ∃ b, heapBest g.2 = some b ∧
        vm = ⟨g.1, match_percentage_of b, b.restaurant_id,
              b.restaurant_name⟩ := by
  unfold venue_matches
  rw [List.mem_insertionSort, List.mem_filterMap]
  constructor
  · rintro ⟨g, hg, hsome⟩
    rw [Option.map_eq_some'] at hsome
    obtain ⟨b, hb, rfl⟩ := hsome
    exact ⟨g, hg, b, hb, rfl⟩
  · rintro ⟨g, hg, b, hb, rfl⟩
    exact ⟨g, hg, by rw [hb]; rfl⟩

lemma venueMatch_keys_sublist (gs : List (String × List MatchResult)) :
    ((gs.filterMap (fun g => (heapBest g.2).map (fun b =>
        (⟨g.1, match_percentage_of b, b.restaurant_id,
          b.restaurant_name⟩ : VenueMatch)))).map
      VenueMatch.venue_id).Sublist (gs.map Prod.fst) := by
  induction gs with
  | nil => simp
  | cons g gs' ih =>
    simp only [List.filterMap_cons]
    rcases heapBest g.2 with _ | b
    · simp only [Option.map_none', List.map_cons]
      exact ih.cons g.1
    · simp only [Option.map_some', List.map_cons]
      exact ih.cons₂ g.1

/-- **C5.** The venue reduction returns at most one record per venue id;
each returned record's match percentage is attained by, and maximal among,
the match results sharing its venue id; records with an empty venue id are
excluded from the reduction yet still appear in the full ranked output. -/
theorem c5_venue_reduction (match_results : List MatchResult) :
    ((venue_matches match_results).map VenueMatch.venue_id).Nodup ∧
    (∀ vm ∈ venue_matches match_results,
      vm.venue_id ≠ "" ∧
      (∃ r ∈ match_results, r.venue_id = vm.venue_id ∧
        match_percentage_of r = vm.match_percentage) ∧
      (∀ r ∈ match_results, r.venue_id = vm.venue_id →
        match_percentage_of r ≤ vm.match_percentage)) ∧
    (∀ r ∈ match_results,
      simplified_of r ∈ simplified_results match_results) := by
  obtain ⟨hnd, hspec⟩ := venue_heaps_spec match_results
  refine ⟨?_, ?_, ?_⟩
  · unfold venue_matches
    have hperm : List.Perm
        ((((venue_heaps match_results).filterMap (fun g =>
          (heapBest g.2).map (fun b =>
            (⟨g.1, match_percentage_of b, b.restaurant_id,
              b.restaurant_name⟩ : VenueMatch)))).insertionSort
          (fun a b => b.match_percentage ≤ a.match_percentage)).map
            VenueMatch.venue_id)
        (((venue_heaps match_results).filterMap (fun g =>
          (heapBest g.2).map (fun b =>
            (⟨g.1, match_percentage_of b, b.restaurant_id,
              b.restaurant_name⟩ : VenueMatch)))).map VenueMatch.venue_id) :=
      (List.perm_insertionSort _ _).map _
    rw [hperm.nodup_iff]
    exact (venueMatch_keys_sublist (venue_heaps match_results)).nodup hnd
  · intro vm hvm
    obtain ⟨g, hg, b, hb, rfl⟩ := mem_venue_matches.1 hvm
    obtain ⟨hgne, hgfil⟩ := hspec g hg
    have hbmem : b ∈ g.2 := heapBest_mem hb
    have hbfil : b ∈ match_results.filter (fun x => x.venue_id = g.1) := by
      rw [← hgfil]
      exact hbmem
    have hbv : b.venue_id = g.1 := by
      have := List.of_mem_filter hbfil
      simpa using this
    refine ⟨hgne, ⟨b, List.mem_of_mem_filter hbfil, hbv, rfl⟩, ?_⟩
    intro r hr hrv
    have hrg : r ∈ g.2 := by
      rw [hgfil]
      exact List.mem_filter.2 ⟨hr, by simpa using hrv⟩
    exact (not_heapLt_iff.1 (heapBest_not_beaten hb r hrg)).1
  · intro r hr
    exact List.mem_map.2 ⟨r, hr, rfl⟩

/-- **C6 (amended).** Within a venue, the reduction returns the record that
is maximal for the heap order: on an exact match-percentage tie it selects
the record with the smallest variant id among the tied ones — Python's heap
compares the tuples `(-match_percentage, restaurant_id, ...)` — not the one
inserted first. -/
theorem c6_tie_break (match_results : List MatchResult) :
    ∀ vm ∈ venue_matches match_results,
      ∀ r ∈ match_results, r.venue_id = vm.venue_id →
        match_percentage_of r < vm.match_percentage ∨
        (match_percentage_of r = vm.match_percentage ∧
          vm.best_variant_id ≤ r.restaurant_id) := by
  intro vm hvm r hr hrv
  obtain ⟨hnd, hspec⟩ := venue_heaps_spec match_results
  obtain ⟨g, hg, b, hb, rfl⟩ := mem_venue_matches.1 hvm
  obtain ⟨hgne, hgfil⟩ := hspec g hg
  have hrg : r ∈ g.2 := by
    rw [hgfil]
    exact List.mem_filter.2 ⟨hr, by simpa using hrv⟩
  have hnb := not_heapLt_iff.1 (heapBest_not_beaten hb r hrg)
  rcases lt_or_eq_of_le hnb.1 with hlt | heq
  · exact Or.inl hlt
  · exact Or.inr ⟨heq, hnb.2 heq⟩

/-- A tied record inserted first, with the lexicographically larger id. -/
def tieRecB : MatchResult :=
  ⟨"b", "PackB", 1/2, [], [], 100, 4, "pb", "v", []⟩

/-- A tied record inserted second, with the smaller id. -/
def tieRecA : MatchResult :=
  ⟨"a", "PackA", 1/2, [], [], 100, 4, "pa", "v", []⟩

lemma tie_venue_matches_eval :
    venue_matches [tieRecB, tieRecA] =
      [⟨"v", 50, "a", "PackA"⟩] := by
  have hab : ("a" : String) < "b" := by
    rw [String.lt_iff_toList_lt]
    decide
  have h50 : round2 ((2 : ℚ)⁻¹ * 100) = 50 := by
    unfold round2 roundHalfEven
    norm_num
  have hv : ("v" : String) ≠ "" := by decide
  simp [venue_matches, venue_heaps, pushVenue, heapBest, heapLt,
    match_percentage_of, h50, hab, hv, tieRecA, tieRecB, List.insertionSort,
    List.orderedInsert, List.filterMap_cons]

/-- **C6, counterexample to the claim as stated.** Two records for venue
`v` tie exactly at 50%; the record with id `b` is inserted into the heap
first, yet the reduction selects the one with id `a`. -/
theorem c6_first_insert_counterexample :
    (venue_matches [tieRecB, tieRecA]).map VenueMatch.best_variant_id =
      ["a"] ∧
    match_percentage_of tieRecB = match_percentage_of tieRecA ∧
    tieRecB.restaurant_id ≠ tieRecA.restaurant_id := by
  refine ⟨?_, rfl, by decide⟩
  rw [tie_venue_matches_eval]
  rfl

/-- Witness for `c6_tie_break` at the concrete tied pair. -/
theorem c6_tie_break_witness :
    match_percentage_of tieRecB <
        (⟨"v", 50, "a", "PackA"⟩ : VenueMatch).match_percentage ∨
      (match_percentage_of tieRecB =
          (⟨"v", 50, "a", "PackA"⟩ : VenueMatch).match_percentage ∧
        (⟨"v", 50, "a", "PackA"⟩ : VenueMatch).best_variant_id ≤
          tieRecB.restaurant_id) :=
  c6_tie_break [tieRecB, tieRecA] ⟨"v", 50, "a", "PackA"⟩
    (by rw [tie_venue_matches_eval]; exact List.mem_singleton.2 rfl)
    tieRecB (by simp) rfl

/-- Witness for `c5_venue_reduction` at the concrete tied pair. -/
theorem c5_venue_reduction_witness :
    (⟨"v", 50, "a", "PackA"⟩ : VenueMatch).venue_id ≠ "" ∧
    (∃ r ∈ [tieRecB, tieRecA],
      r.venue_id = (⟨"v", 50, "a", "PackA"⟩ : VenueMatch).venue_id ∧
      match_percentage_of r =
        (⟨"v", 50, "a", "PackA"⟩ : VenueMatch).match_percentage) ∧
    (∀ r ∈ [tieRecB, tieRecA],
      r.venue_id = (⟨"v", 50, "a", "PackA"⟩ : VenueMatch).venue_id →
      match_percentage_of r ≤
        (⟨"v", 50, "a", "PackA"⟩ : VenueMatch).match_percentage) :=
  (c5_venue_reduction [tieRecB, tieRecA]).2.1 ⟨"v", 50, "a", "PackA"⟩
    (by rw [tie_venue_matches_eval]; exact List.mem_singleton.2 rfl)

/-- A JSON-shaped Python value as the popularity analyzer receives it.
Dicts are insertion-ordered association lists. -/
inductive PyVal where
  | pstr (s : String)
  | pnum (q : ℚ)
  | pdict (entries : List (String × PyVal))
  | plist (elems : List PyVal)
  | pnone

/-- First-match association-list lookup: `d.get(k)` / `k in d`. -/
def alistGet {β : Type} (l : List (String × β)) (k : String) : Option β :=
  match l with
  | [] => none
  | p :: rest => if p.1 = k then some p.2 else alistGet rest k

/-- `k in d`. -/
def alistHas {β : Type} (l : List (String × β)) (k : String) : Bool :=
  (alistGet l k).isSome

/-- In-place update of the value stored at a key, keeping insertion order
(a Python dict write to an existing key). -/
def alistUpd {β : Type} (l : List (String × β)) (k : String) (f : β → β) :
    List (String × β) :=
  match l with
  | [] => []
  | p :: rest => if p.1 = k then (p.1, f p.2) :: rest else p :: alistUpd rest k f

/-- Python truthiness of a value, as used by `or` and bare `if`. -/
def PyVal.truthy : PyVal → Bool
  | .pstr s => !(s == "")
  | .pnum q => !(q == 0)
  | .pdict [] => false
  | .pdict (_ :: _) => true
  | .plist [] => false
  | .plist (_ :: _) => true
  | .pnone => false

/-- Rendering of a value where the source interpolates it into an f-string
or a composite key.  Strings render as themselves — the only case whose
exact text matters to any claim; the rest is a display convention. -/
def pyStr : PyVal → String
  | .pstr s => s
  | .pnum q => toString q
  | .pdict _ => "\x7bdict\x7d"
  | .plist _ => "[list]"
  | .pnone => "None"

/-- Rendering of `type(v)` in the not-a-dictionary note. -/
def pyTypeName : PyVal → String
  | .pstr _ => "<class str>"
  | .pnum _ => "<class float>"
  | .pdict _ => "<class dict>"
  | .plist _ => "<class list>"
  | .pnone => "<class NoneType>"

/-- One value of the per-variant `variant_items` dict
(src/app.py lines 740-747). -/
structure ItemData where
  name : String
  category : String
  cuisine : String
  subcategory : String
  quantity : ℚ
  deriving DecidableEq, Repr

/-- The per-variant `variant_items` dict, keyed by the composite item key. -/
abbrev Items := List (String × ItemData)

/-- `_add_item_to_stats` (src/app.py lines 733-749): drop falsy names and
non-positive quantities, insert a fresh key or accumulate the quantity of an
existing one. -/
def add_item_to_stats (item_name : PyVal) (quantity : ℚ)
    (variant_items : Items) (category cuisine subcategory : String) : Items :=
  if !item_name.truthy ∨ quantity ≤ 0 then variant_items
  else
    let nm := pyStr item_name
    let item_key := category ++ "|" ++ cuisine ++ "|" ++ subcategory ++ "|" ++ nm
    if alistHas variant_items item_key then
      alistUpd variant_items item_key
        (fun d => { d with quantity := d.quantity + quantity })
    else
      variant_items ++ [(item_key, ⟨nm, category, cuisine, subcategory, quantity⟩)]

/-- `_process_nested_count_structure` (src/app.py lines 712-731). -/
def process_nested_count (parent_name : String) (count_structure : PyVal)
    (variant_items : Items) (category cuisine : String) : Items :=
  match count_structure with
  | .pdict es =>
    if alistHas es "count" then
      match (alistGet es "count").getD (.pnum 0) with
      | .pnum q =>
        if 0 < q then
          add_item_to_stats (.pstr parent_name) q variant_items category cuisine
            "General"
        else variant_items
      | _ => variant_items
    else
      es.foldl (fun acc sub =>
        match sub.2 with
        | .pnum q =>
          if 0 < q then
            add_item_to_stats (.pstr (parent_name ++ "_" ++ sub.1)) q acc
              category cuisine "General"
          else acc
        | _ => acc) variant_items
  | _ => variant_items

/-- `_process_count_data` (src/app.py lines 689-710). -/
def process_count_data (count_data : PyVal) (variant_items : Items)
    (category cuisine subcategory : String) : Items :=
  match count_data with
  | .pdict es =>
    es.foldl (fun acc p =>
      match p.2 with
      | .pnum q =>
        if 0 < q then
          add_item_to_stats (.pstr p.1) q acc category cuisine subcategory
        else acc
      | .pdict des => process_nested_count p.1 (.pdict des) acc category cuisine
      | _ => acc) variant_items
  | .plist xs =>
    xs.foldl (fun acc item =>
      match item with
      | .pdict es =>
        let item_name := (alistGet es "name").getD (.pstr "Unknown")
        match (alistGet es "count").getD (.pnum 0) with
        | .pnum q =>
          if 0 < q then
            add_item_to_stats item_name q acc category cuisine subcategory
          else acc
        | _ => acc
      | _ => acc) variant_items
  | _ => variant_items

/-- `section.get("name", "General")`-style string extraction. -/
def nameOrGeneral (es : List (String × PyVal)) : String :=
  match alistGet es "name" with
  | some v => pyStr v
  | none => "General"

/-- `_process_menu_section` (src/app.py lines 653-687). -/
def process_menu_section (section_entries : List (String × PyVal))
    (variant_items : Items) : Items :=
  let section_name := nameOrGeneral section_entries
  let acc1 :=
    match alistGet section_entries "subcategoriesByCuisine" with
    | some (.pdict cuisines) =>
      cuisines.foldl (fun acc cq =>
        match cq.2 with
        | .plist subcats =>
          subcats.foldl (fun acc2 subcat =>
            match subcat with
            | .pdict sentries =>
              let a := (alistGet sentries "availableMenuCount").getD .pnone
              let count_data :=
                if a.truthy then a else (alistGet sentries "count").getD .pnone
              if count_data.truthy then
                process_count_data count_data acc2 section_name cq.1
                  (nameOrGeneral sentries)
              else acc2
            | _ => acc2) acc
        | _ => acc) variant_items
    | _ => variant_items
  let acc2 :=
    match alistGet section_entries "availableMenuCount" with
    | some v => process_count_data v acc1 section_name "General" "General"
    | none => acc1
  match alistGet section_entries "count" with
  | some v => process_count_data v acc2 section_name "General" "General"
  | none => acc2

/-- `_process_available_menu_count` (src/app.py lines 622-651). -/
def process_available_menu_count (menu_count_data : PyVal)
    (variant_items : Items) : Items :=
  match menu_count_data with
  | .pdict es =>
    es.foldl (fun acc p =>
      match p.2 with
      | .pnum q =>
        if 0 < q then
          add_item_to_stats (.pstr p.1) q acc "Menu Items" "General" "General"
        else acc
      | .pdict des =>
        process_nested_count p.1 (.pdict des) acc "Menu Items" "General"
      | _ => acc) variant_items
  | .plist xs =>
    xs.foldl (fun acc item =>
      match item with
      | .pdict es =>
        if alistHas es "name" && alistHas es "count" then
          let item_name := (alistGet es "name").getD .pnone
          match (alistGet es "count").getD (.pnum 0) with
          | .pnum q =>
            if 0 < q then
              add_item_to_stats item_name q acc "Menu Items" "General" "General"
            else acc
          | _ => acc
        else process_menu_section es acc
      | _ => acc) variant_items
  | _ => variant_items

/-- The `Found n unique items` diagnostic (src/app.py line 611). -/
def foundNote (variant_id : String) (n : ℕ) : String :=
  s!"Variant {variant_id}: Found {n} unique items"

/-- The `No items found` diagnostic (src/app.py line 615). -/
def noItemsNote (variant_id : String) (ks : List String) : String :=
  s!"Variant {variant_id}: No items found. Keys: {ks}"

/-- `_extract_items_from_variant` (src/app.py lines 575-620), returning the
extracted items and the diagnostics it appends.  The `try/except` is dead in
the model: every helper is total, as in the source on JSON-shaped input. -/
def extract_items_from_variant (variant : List (String × PyVal)) :
    Items × List String :=
  let variant_id :=
    match alistGet variant "_id" with
    | some v => pyStr v
    | none => "unknown"
  let i1 :=
    match alistGet variant "availableMenuCount" with
    | some v => process_available_menu_count v []
    | none => []
  let i2 :=
    match alistGet variant "menuSections" with
    | some (.plist sections) =>
      sections.foldl (fun acc s =>
        match s with
        | .pdict es => process_menu_section es acc
        | _ => acc) i1
    | _ => i1
  let i3 :=
    match alistGet variant "data" with
    | some (.pdict des) =>
      let j1 :=
        match alistGet des "availableMenuCount" with
        | some v => process_available_menu_count v i2
        | none => i2
      match alistGet des "menuSections" with
      | some (.plist sections) =>
        sections.foldl (fun acc s =>
          match s with
          | .pdict es => process_menu_section es acc
          | _ => acc) j1
      | _ => j1
    | _ => i2
  let i4 :=
    match alistGet variant "count" with
    | some v => process_count_data v i3 "General" "General" "General"
    | none => i3
  if i4.isEmpty then
    (i4, [noItemsNote variant_id ((variant.map Prod.fst).take 5)])
  else
    (i4, [foundNote variant_id i4.length])

/-- One value of the `item_stats` dict (src/app.py lines 556-566). -/
structure ItemStats where
  count : ℕ
  total_quantity : ℚ
  item_name : String
  category : String
  cuisine : String
  subcategory : String
  deriving DecidableEq, Repr

/-- The `item_stats` dict. -/
abbrev StatsMap := List (String × ItemStats)

/-- The inner loop of src/app.py lines 554-566: merge one variant's items
into `item_stats`.  The zero-initialisation of a fresh key immediately
followed by the unconditional increments is folded into a single insertion
with `count = 1`. -/
def record_variant_items (item_stats : StatsMap) (variant_items : Items) :
    StatsMap :=
  variant_items.foldl (fun st p =>
    if alistHas st p.1 then
      alistUpd st p.1 (fun s =>
        { s with count := s.count + 1,
                 total_quantity := s.total_quantity + p.2.quantity })
    else
      st ++ [(p.1, ⟨1, p.2.quantity, p.2.name, p.2.category, p.2.cuisine,
                    p.2.subcategory⟩)]) item_stats

/-- The `Not a dictionary` diagnostic (src/app.py line 547). -/
def notDictNote (i : ℕ) (v : PyVal) : String :=
  s!"Variant {i}: Not a dictionary - {pyTypeName v}"

/-- The `No items extracted` diagnostic (src/app.py lines 568-569). -/
def noExtractNote (i : ℕ) (entries : List (String × PyVal)) : String :=
  let variant_id :=
    match alistGet entries "_id" with
    | some v => pyStr v
    | none => s!"variant_{i}"
  s!"Variant {variant_id}: No items extracted"

/-- The `Processed x out of y variants` diagnostic (src/app.py line 571). -/
def processedNote (p total : ℕ) : String :=
  s!"Processed {p} out of {total} variants"

/-- The mutable state of the `analyze_variants` loop. -/
structure AnalyzeState where
  item_stats : StatsMap
  variants_processed : ℕ
  debug_info : List String

/-- One iteration of the loop at src/app.py lines 545-569, on an enumerated
variant. -/
def analyze_step (s : AnalyzeState) (iv : ℕ × PyVal) : AnalyzeState :=
  match iv.2 with
  | .pdict entries =>
    let ex := extract_items_from_variant entries
    if ex.1.isEmpty then
      { s with debug_info := s.debug_info ++ ex.2 ++ [noExtractNote iv.1 entries] }
    else
      { item_stats := record_variant_items s.item_stats ex.1,
        variants_processed := s.variants_processed + 1,
        debug_info := s.debug_info ++ ex.2 }
  | v => { s with debug_info := s.debug_info ++ [notDictNote iv.1 v] }

/-- One output record of the analyzer (src/app.py lines 762-772). -/
structure PopularityItem where
  item_id : String
  item_name : String
  category : String
  cuisine : String
  subcategory : String
  variants_count : ℕ
  popularity_percentage : ℚ
  total_quantity_across_variants : ℚ
  average_quantity_per_variant : ℚ
  deriving DecidableEq, Repr

/-- The analyzer's response (src/app.py lines 776-781); the degenerate
empty-input response of line 541 carries no `total_unique_items` key, which
the model renders as `0`. -/
structure AnalyzeResult where
  items : List PopularityItem
  total_variants : ℕ
  total_unique_items : ℕ
  debug_info : List String

/-- The popularity percentage before rounding (src/app.py line 759); its
denominator is `total_variants`, the length of the input list. -/
def popularity_raw (count total_variants : ℕ) : ℚ :=
  ((count : ℚ) / (total_variants : ℚ)) * 100

/-- `_prepare_popularity_response` (src/app.py lines 751-781): build one
record per `item_stats` key and sort them by popularity percentage,
descending and stable. -/
def prepare_popularity_response (item_stats : StatsMap) (total_variants : ℕ)
    (debug_info : List String) : AnalyzeResult :=
  let items_list := item_stats.map (fun p =>
    let avg :=
      if 0 < p.2.count then p.2.total_quantity / (p.2.count : ℚ) else 0
    (⟨p.1, p.2.item_name, p.2.category, p.2.cuisine, p.2.subcategory,
      p.2.count, round2 (popularity_raw p.2.count total_variants),
      p.2.total_quantity, round2 avg⟩ : PopularityItem))
  ⟨items_list.insertionSort
     (fun a b => b.popularity_percentage ≤ a.popularity_percentage),
   total_variants, items_list.length, debug_info⟩

/-- The state after the whole loop of src/app.py lines 545-569. -/
def analyze_final (variants_data : List PyVal) : AnalyzeState :=
  variants_data.enum.foldl analyze_step ⟨[], 0, []⟩

/-- `analyze_variants` (src/app.py lines 526-573). -/
def analyze_variants (variants_data : List PyVal) : AnalyzeResult :=
  if variants_data.length = 0 then
    ⟨[], 0, 0, ["No variants provided"]⟩
  else
    prepare_popularity_response (analyze_final variants_data).item_stats
      variants_data.length
      ((analyze_final variants_data).debug_info ++
        [processedNote (analyze_final variants_data).variants_processed
          variants_data.length])

/-- A variant the analyzer skips: not a dict (src/app.py line 546), or a
dict from which no items were extracted (lines 567-569). -/
def variantSkipped (v : PyVal) : Bool :=
  match v with
  | .pdict entries => (extract_items_from_variant entries).1.isEmpty
  | _ => true

/-- The diagnostic note the loop records for a skipped variant: the
`Not a dictionary` note (line 547) for a non-dict, the `No items extracted`
note (lines 568-569) for an item-less dict. -/
def skipNote (i : ℕ) (v : PyVal) : String :=
  match v with
  | .pdict entries => noExtractNote i entries
  | v => notDictNote i v

/-- The effect of one loop iteration on `item_stats` alone: it depends only
on the variant, not on its index. -/
def stats_step (st : StatsMap) (v : PyVal) : StatsMap :=
  match v with
  | .pdict entries =>
    if (extract_items_from_variant entries).1.isEmpty then st
    else record_variant_items st (extract_items_from_variant entries).1
  | _ => st

/-- The effect of one loop iteration on `variants_processed` alone. -/
def processed_step (n : ℕ) (v : PyVal) : ℕ :=
  if variantSkipped v then n else n + 1

lemma analyze_step_stats (s : AnalyzeState) (iv : ℕ × PyVal) :
    (analyze_step s iv).item_stats = stats_step s.item_stats iv.2 := by
  rcases iv with ⟨i, v⟩
  cases v
  all_goals simp only [analyze_step, stats_step]
  all_goals first
    | rfl
    | (split
       · rfl
       · rfl)

lemma analyze_step_processed (s : AnalyzeState) (iv : ℕ × PyVal) :
    (analyze_step s iv).variants_processed =
      processed_step s.variants_processed iv.2 := by
  rcases iv with ⟨i, v⟩
  cases v <;>
    simp only [analyze_step, processed_step, variantSkipped] <;> first
    | rfl
    | (split
       · rfl
       · rfl)

lemma analyze_fold_stats (l : List (ℕ × PyVal)) :
    ∀ s : AnalyzeState,
      (l.foldl analyze_step s).item_stats =
        (l.map Prod.snd).foldl stats_step s.item_stats := by
  induction l with
  | nil => intro s; rfl
  | cons iv l' ih =>
    intro s
    simp only [List.foldl_cons, List.map_cons]
    rw [ih, analyze_step_stats]

lemma analyze_fold_processed (l : List (ℕ × PyVal)) :
    ∀ s : AnalyzeState,
      (l.foldl analyze_step s).variants_processed =
        (l.map Prod.snd).foldl processed_step s.variants_processed := by
  induction l with
  | nil => intro s; rfl
  | cons iv l' ih =>
    intro s
    simp only [List.foldl_cons, List.map_cons]
    rw [ih, analyze_step_processed]

lemma analyze_step_debug_mono (s : AnalyzeState) (iv : ℕ × PyVal)
    {x : String} (hx : x ∈ s.debug_info) :
    x ∈ (analyze_step s iv).debug_info := by
  rcases iv with ⟨i, v⟩
  cases v <;> simp only [analyze_step] <;>
    first
    | exact List.mem_append_left _ hx
    | (split
       · exact List.mem_append_left _ (List.mem_append_left _ hx)
       · exact List.mem_append_left _ hx)

lemma analyze_fold_debug_mono (l : List (ℕ × PyVal)) :
    ∀ (s : AnalyzeState) {x : String},
      x ∈ s.debug_info → x ∈ (l.foldl analyze_step s).debug_info := by
  induction l with
  | nil => intro s x hx; exact hx
  | cons iv l' ih =>
    intro s x hx
    exact ih _ (analyze_step_debug_mono s iv hx)

lemma analyze_step_skip_note (s : AnalyzeState) (iv : ℕ × PyVal)
    (hv : variantSkipped iv.2 = true) :
    skipNote iv.1 iv.2 ∈ (analyze_step s iv).debug_info := by
  rcases iv with ⟨i, v⟩
  cases v <;>
    simp only [analyze_step, skipNote, variantSkipped] at hv ⊢ <;>
    first
    | exact List.mem_append_right _ (List.mem_singleton.2 rfl)
    | (rw [if_pos hv]
       exact List.mem_append_right _ (List.mem_singleton.2 rfl))

lemma analyze_fold_skip_note (l : List (ℕ × PyVal)) :
    ∀ (s : AnalyzeState) (iv : ℕ × PyVal),
      iv ∈ l → variantSkipped iv.2 = true →
      skipNote iv.1 iv.2 ∈ (l.foldl analyze_step s).debug_info := by
  induction l with
  | nil => intro s iv h; cases h
  | cons jv l' ih =>
    intro s iv hmem hskip
    rcases List.mem_cons.1 hmem with rfl | hmem'
    · exact analyze_fold_debug_mono l' _ (analyze_step_skip_note s iv hskip)
    · exact ih _ iv hmem' hskip

lemma stats_step_skip {st : StatsMap} {v : PyVal}
    (hv : variantSkipped v = true) : stats_step st v = st := by
  cases v
  all_goals simp only [stats_step, variantSkipped] at hv ⊢
  all_goals first
    | rfl
    | rw [if_pos hv]

lemma stats_fold_filter (l : List PyVal) :
    ∀ st : StatsMap,
      l.foldl stats_step st =
        (l.filter (fun v => !variantSkipped v)).foldl stats_step st := by
  induction l with
  | nil => intro st; rfl
  | cons v l' ih =>
    intro st
    simp only [List.foldl_cons, List.filter_cons]
    by_cases hv : variantSkipped v = true
    · rw [stats_step_skip hv, ih]
      have hb : (!variantSkipped v) = false := by rw [hv]; rfl
      rw [hb, if_neg Bool.false_ne_true]
    · have hv' : variantSkipped v = false := eq_false_of_ne_true hv
      have hb : (!variantSkipped v) = true := by rw [hv']; rfl
      rw [hb, if_pos rfl, List.foldl_cons, ih]

lemma processed_fold (l : List PyVal) :
    ∀ n : ℕ, l.foldl processed_step n =
      n + (l.filter (fun v => !variantSkipped v)).length := by
  induction l with
  | nil => intro n; simp
  | cons v l' ih =>
    intro n
    simp only [List.foldl_cons, List.filter_cons, processed_step]
    by_cases hv : variantSkipped v = true
    · have hb : (!variantSkipped v) = false := by rw [hv]; rfl
      rw [if_pos hv, ih, hb, if_neg Bool.false_ne_true]
    · have hv' : variantSkipped v = false := eq_false_of_ne_true hv
      have hb : (!variantSkipped v) = true := by rw [hv']; rfl
      rw [if_neg hv, ih, hb, if_pos rfl]
      simp only [List.length_cons]
      omega

lemma alistUpd_forall {β : Type} {P : String × β → Prop}
    {l : List (String × β)} (h : ∀ p ∈ l, P p) {k : String} {f : β → β}
    (hf : ∀ p ∈ l, P (p.1, f p.2)) : ∀ p ∈ alistUpd l k f, P p := by
  induction l with
  | nil => intro p hp; cases hp
  | cons q l' ih =>
    intro p hp
    simp only [alistUpd] at hp
    split at hp
    · rcases List.mem_cons.1 hp with rfl | hp'
      · exact hf q (by simp)
      · exact h p (by simp [hp'])
    · rcases List.mem_cons.1 hp with rfl | hp'
      · exact h p (by simp)
      · exact ih (fun r hr => h r (by simp [hr]))
          (fun r hr => hf r (by simp [hr])) p hp'

lemma record_variant_items_count {items : Items} :
    ∀ {st : StatsMap}, (∀ p ∈ st, 1 ≤ p.2.count) →
      ∀ p ∈ record_variant_items st items, 1 ≤ p.2.count := by
  unfold record_variant_items
  induction items with
  | nil => intro st h; exact h
  | cons it items' ih =>
    intro st h
    simp only [List.foldl_cons]
    apply ih
    split
    · refine alistUpd_forall h ?_
      intro x _
      simp
    · intro p hp
      rcases List.mem_append.1 hp with hp' | hp'
      · exact h p hp'
      · rcases List.mem_singleton.1 hp' with rfl
        exact le_refl 1

lemma stats_step_count {st : StatsMap} {v : PyVal}
    (h : ∀ p ∈ st, 1 ≤ p.2.count) :
    ∀ p ∈ stats_step st v, 1 ≤ p.2.count := by
  cases v <;> simp only [stats_step] <;> try exact h
  split
  · exact h
  · exact record_variant_items_count h

lemma stats_fold_count (l : List PyVal) :
    ∀ st : StatsMap, (∀ p ∈ st, 1 ≤ p.2.count) →
      ∀ p ∈ l.foldl stats_step st, 1 ≤ p.2.count := by
  induction l with
  | nil => intro st h; exact h
  | cons v l' ih =>
    intro st h
    simp only [List.foldl_cons]
    exact ih _ (stats_step_count h)

lemma analyze_final_stats (vs : List PyVal) :
    (analyze_final vs).item_stats = vs.foldl stats_step [] := by
  unfold analyze_final
  rw [analyze_fold_stats, List.enum_map_snd]

lemma analyze_final_processed (vs : List PyVal) :
    (analyze_final vs).variants_processed = vs.foldl processed_step 0 := by
  unfold analyze_final
  rw [analyze_fold_processed, List.enum_map_snd]

lemma filter_length_lt {l : List PyVal} {v : PyVal} (hv : v ∈ l)
    (hskip : variantSkipped v = true) :
    (l.filter (fun x => !variantSkipped x)).length < l.length := by
  induction l with
  | nil => cases hv
  | cons w l' ih =>
    simp only [List.filter_cons, List.length_cons]
    rcases List.mem_cons.1 hv with rfl | hv'
    · have hb : (!variantSkipped v) = false := by rw [hskip]; rfl
      rw [hb, if_neg Bool.false_ne_true]
      have := List.length_filter_le (fun x => !variantSkipped x) l'
      omega
    · by_cases hw : (!variantSkipped w) = true
      · rw [if_pos hw]
        simp only [List.length_cons]
        have := ih hv'
        omega
      · rw [if_neg hw]
        have := ih hv'
        omega

/-- **C9.** For a batch in which some variants are malformed (not a dict)
or yield no extractable items, the analyzer skips exactly those variants:
the item statistics equal the statistics of the remaining variants alone,
the processed counter counts exactly the remaining variants, and a
diagnostic note for each skipped variant appears in the returned debug
output.  Totality of `analyze_variants` is the model's rendering of "never
fails for the whole batch". -/
theorem c9_analyzer_skips_only_bad (variants : List PyVal)
    (hbad : ∃ v ∈ variants, variantSkipped v = true) :
    (analyze_final variants).item_stats =
      (analyze_final
        (variants.filter (fun v => !variantSkipped v))).item_stats ∧
    (analyze_final variants).variants_processed =
      (variants.filter (fun v => !variantSkipped v)).length ∧
    (∀ iv ∈ variants.enum, variantSkipped iv.2 = true →
      skipNote iv.1 iv.2 ∈ (analyze_variants variants).debug_info) := by
  obtain ⟨v0, hv0, hv0s⟩ := hbad
  have hne : variants.length ≠ 0 := by
    cases variants
    · cases hv0
    · simp
  refine ⟨?_, ?_, ?_⟩
  · rw [analyze_final_stats, analyze_final_stats, stats_fold_filter]
  · rw [analyze_final_processed, processed_fold]
    simp
  · intro iv hmem hskip
    unfold analyze_variants
    rw [if_neg hne]
    exact List.mem_append_left _
      (analyze_fold_skip_note _ _ iv hmem hskip)

/-- **C10.** The denominator of the (pre-rounding) popularity percentage of
src/app.py line 759 is the total number of supplied variants — skipped ones
included — so on every batch with at least one skipped variant, each item's
popularity percentage is strictly smaller than its presence count divided by
the number of successfully processed variants, times 100. -/
theorem c10_popularity_denominator (variants : List PyVal)
    (hbad : ∃ v ∈ variants, variantSkipped v = true) :
    (analyze_variants variants).total_variants = variants.length ∧
    ∀ p ∈ (analyze_final variants).item_stats,
      popularity_raw p.2.count variants.length <
        (p.2.count : ℚ) /
          ((variants.filter (fun v => !variantSkipped v)).length : ℚ) *
          100 := by
  obtain ⟨v0, hv0, hv0s⟩ := hbad
  have hne : variants.length ≠ 0 := by
    cases variants
    · cases hv0
    · simp
  constructor
  · unfold analyze_variants
    rw [if_neg hne]
    rfl
  · intro p hp
    have hcount : 1 ≤ p.2.count := by
      rw [analyze_final_stats] at hp
      exact stats_fold_count variants [] (by intro q hq; cases hq) p hp
    have hprpos :
        0 < (variants.filter (fun v => !variantSkipped v)).length := by
      by_contra hzero
      push_neg at hzero
      have hnil : variants.filter (fun v => !variantSkipped v) = [] :=
        List.length_eq_zero.1 (Nat.le_zero.1 hzero)
      rw [analyze_final_stats, stats_fold_filter, hnil] at hp
      cases hp
    have hlt : (variants.filter (fun v => !variantSkipped v)).length <
        variants.length := filter_length_lt hv0 hv0s
    unfold popularity_raw
    have hc : (0 : ℚ) < (p.2.count : ℚ) := by exact_mod_cast hcount
    have h1 : (p.2.count : ℚ) / (variants.length : ℚ) <
        (p.2.count : ℚ) /
          ((variants.filter (fun v => !variantSkipped v)).length : ℚ) :=
      div_lt_div_of_pos_left hc (by exact_mod_cast hprpos)
        (by exact_mod_cast hlt)
    exact mul_lt_mul_of_pos_right h1 (by norm_num)

/-- A well-formed variant: one `availableMenuCount` dict with one positive
item count. -/
def sampleVariant : PyVal :=
  .pdict [("availableMenuCount", .pdict [("Paneer", .pnum 5)])]

lemma sample_stats_eval :
    (analyze_final [PyVal.pnone, sampleVariant]).item_stats =
      [("Menu Items|General|General|Paneer",
        ⟨1, 5, "Paneer", "Menu Items", "General", "General"⟩)] := by
  rw [analyze_final_stats]
  simp [stats_step, sampleVariant, extract_items_from_variant, alistGet,
    alistHas, process_available_menu_count, process_count_data,
    add_item_to_stats, PyVal.truthy, pyStr, record_variant_items]
  norm_num [alistGet, alistHas]

/-- Witness for `c9_analyzer_skips_only_bad`: a batch of one malformed and
one well-formed variant records the not-a-dictionary note. -/
theorem c9_analyzer_skips_only_bad_witness :
    skipNote 0 PyVal.pnone ∈
      (analyze_variants [PyVal.pnone, sampleVariant]).debug_info :=
  (c9_analyzer_skips_only_bad [PyVal.pnone, sampleVariant]
      ⟨PyVal.pnone, List.mem_cons_self _ _, rfl⟩).2.2
    (0, PyVal.pnone)
    (by rw [show ([PyVal.pnone, sampleVariant]).enum =
          [(0, PyVal.pnone), (1, sampleVariant)] from rfl]
        exact List.mem_cons_self _ _)
    rfl

/-- Witness for `c10_popularity_denominator` on the same batch: the single
item is present in 1 of 2 variants, and `1/2 × 100 < 1/1 × 100`. -/
theorem c10_popularity_denominator_witness :
    popularity_raw 1 ([PyVal.pnone, sampleVariant]).length <
      ((1 : ℕ) : ℚ) /
        ((([PyVal.pnone, sampleVariant]).filter
          (fun v => !variantSkipped v)).length : ℚ) * 100 :=
  (c10_popularity_denominator [PyVal.pnone, sampleVariant]
      ⟨PyVal.pnone, List.mem_cons_self _ _, rfl⟩).2
    ("Menu Items|General|General|Paneer",
      ⟨1, 5, "Paneer", "Menu Items", "General", "General"⟩)
    (by rw [sample_stats_eval]
        exact List.mem_singleton.2 rfl)

namespace Flatten

/-- The composite key `f"{cat_name}|{cuisine_name}|{subcat_name}|{item_type}"`
built at src/app.py lines 364 and 379, on strings viewed as their character
lists. -/
def joinKey (cat cui sub it : List Char) : List Char :=
  cat ++ '|' :: (cui ++ '|' :: (sub ++ '|' :: it))

/-- Python `key.split('|')` (src/app.py lines 396 and 435) on character
lists: split at every separator, keeping empty parts. -/
def splitBar : List Char → List (List Char)
  | [] => [[]]
  | c :: rest =>
    match splitBar rest with
    | [] => [[c]]
    | p :: ps => if c = '|' then [] :: p :: ps else (c :: p) :: ps

lemma splitBar_ne_nil (l : List Char) : splitBar l ≠ [] := by
  cases l with
  | nil => simp [splitBar]
  | cons c rest =>
    simp only [splitBar]
    rcases splitBar rest with _ | ⟨p, ps⟩
    · simp
    · dsimp only
      split_ifs <;> simp

lemma splitBar_nobar {l : List Char} (h : '|' ∉ l) : splitBar l = [l] := by
  induction l with
  | nil => simp [splitBar]
  | cons a t ih =>
    have ha : a ≠ '|' := fun hq => h (by simp [hq])
    have ht : '|' ∉ t := fun hq => h (by simp [hq])
    simp only [splitBar, ih ht]
    simp [ha]

lemma splitBar_append {c : List Char} (rest : List Char) (h : '|' ∉ c) :
    splitBar (c ++ '|' :: rest) = c :: splitBar rest := by
  induction c with
  | nil =>
    simp only [List.nil_append, splitBar]
    rcases hr : splitBar rest with _ | ⟨p, ps⟩
    · exact absurd hr (splitBar_ne_nil rest)
    · simp
  | cons a t ih =>
    have ha : a ≠ '|' := fun hq => h (by simp [hq])
    have ht : '|' ∉ t := fun hq => h (by simp [hq])
    simp only [List.cons_append, splitBar, List.append_eq]
    rw [ih ht]
    simp [ha]

/-- Splitting a joined key with bar-free components recovers exactly the four
components. -/
lemma splitBar_joinKey {cat cui sub it : List Char}
    (h1 : '|' ∉ cat) (h2 : '|' ∉ cui) (h3 : '|' ∉ sub) (h4 : '|' ∉ it) :
    splitBar (joinKey cat cui sub it) = [cat, cui, sub, it] := by
  unfold joinKey
  rw [splitBar_append _ h1, splitBar_append _ h2, splitBar_append _ h3,
    splitBar_nobar h4]

end Flatten

lemma getOff_nonneg {off : FlatMap} (h : ∀ p ∈ off, 0 ≤ p.2) (k : FlatKey) :
    0 ≤ getOff off k := by
  induction off with
  | nil => simp [getOff]
  | cons p rest ih =>
    simp only [getOff]
    split
    · exact h p (by simp)
    · exact ih fun q hq => h q (by simp [hq])

lemma matched_items_nonneg {fr off : FlatMap}
    (hoff : ∀ p ∈ off, 0 ≤ p.2) (hfr : ∀ p ∈ fr, 0 ≤ p.2) :
    0 ≤ matched_items fr off := by
  apply List.sum_nonneg
  intro x hx
  simp only [List.mem_map] at hx
  obtain ⟨p, hp, rfl⟩ := hx
  exact le_min (getOff_nonneg hoff p.1) (hfr p hp)

lemma matched_items_le_total (fr off : FlatMap) :
    matched_items fr off ≤ (fr.map Prod.snd).sum :=
  List.sum_le_sum fun _ _ => min_le_right _ _

lemma sum_map_eq_iff {α : Type} {l : List α} {f g : α → Int}
    (h : ∀ x ∈ l, f x ≤ g x) :
    (l.map f).sum = (l.map g).sum ↔ ∀ x ∈ l, f x = g x := by
  induction l with
  | nil => simp
  | cons a t ih =>
    simp only [List.map_cons, List.sum_cons, List.mem_cons, forall_eq_or_imp]
    have ha := h a (by simp)
    have ht : ∀ x ∈ t, f x ≤ g x := fun x hx => h x (by simp [hx])
    have hsum := List.sum_le_sum ht
    constructor
    · intro heq
      have hfa : f a = g a := by omega
      exact ⟨hfa, (ih ht).1 (by omega)⟩
    · rintro ⟨hfa, hrest⟩
      rw [hfa, (ih ht).2 hrest]

lemma overall_match_nonneg {fr off : FlatMap}
    (hoff : ∀ p ∈ off, 0 ≤ p.2) (hfr : ∀ p ∈ fr, 0 ≤ p.2)
    (total : Int) : 0 ≤ overall_match fr off total := by
  unfold overall_match
  split
  · apply div_nonneg
    · exact_mod_cast matched_items_nonneg hoff hfr
    · positivity
  · exact le_refl 0

lemma overall_match_le_one {fr off : FlatMap} :
    overall_match fr off ((fr.map Prod.snd).sum) ≤ 1 := by
  unfold overall_match
  split
  · rw [div_le_one (by exact_mod_cast ‹0 < (fr.map Prod.snd).sum›)]
    exact_mod_cast matched_items_le_total fr off
  · exact zero_le_one

lemma overall_match_eq_one_iff {fr off : FlatMap}
    (hpos : 0 < (fr.map Prod.snd).sum) :
    overall_match fr off ((fr.map Prod.snd).sum) = 1 ↔
      ∀ p ∈ fr, p.2 ≤ getOff off p.1 := by
  unfold overall_match
  rw [if_pos hpos,
    div_eq_one_iff_eq (by exact_mod_cast hpos.ne' : ((fr.map Prod.snd).sum : ℚ) ≠ 0)]
  rw [show ((matched_items fr off : ℚ) = ((fr.map Prod.snd).sum : ℚ)) ↔
      matched_items fr off = (fr.map Prod.snd).sum from Int.cast_inj]
  unfold matched_items
  rw [sum_map_eq_iff (fun p _ => min_le_right _ _)]
  constructor
  · intro h p hp
    exact min_eq_right_iff.mp (h p hp)
  · intro h p hp
    exact min_eq_right (h p hp)

lemma flatten_requirements_pos (u : UserRequirement) :
    ∀ p ∈ (flatten_requirements u).1, 0 < p.2 := by
  intro p hp
  simp only [flatten_requirements, List.mem_flatMap, List.mem_filterMap] at hp
  obtain ⟨cp, _, qp, _, sp, _, ip, _, hif⟩ := hp
  split at hif
  · cases hif
    assumption
  · cases hif

lemma flatten_restaurant_pos (r : RestaurantPackage) :
    ∀ p ∈ flatten_restaurant r, 0 < p.2 := by
  intro p hp
  simp only [flatten_restaurant, List.mem_flatMap, List.mem_filterMap] at hp
  obtain ⟨cp, _, qp, _, sp, _, ip, _, hif⟩ := hp
  split at hif
  · cases hif
    assumption
  · cases hif

lemma flatten_requirements_total (u : UserRequirement) :
    (flatten_requirements u).2 = ((flatten_requirements u).1.map Prod.snd).sum :=
  rfl

lemma calculate_match_overall (fr off : FlatMap) (t : Int) :
    (calculate_match fr off t).overall_match = overall_match fr off t := rfl

lemma calculate_match_unmet (fr off : FlatMap) (t : Int) :
    (calculate_match fr off t).unmet_requirements = unmet_requirements fr off :=
  rfl

lemma calculate_match_over100 (fr off : FlatMap) (t : Int) :
    (calculate_match fr off t).over_100_categories = over_100_categories fr off :=
  rfl

lemma item_match_mono {o o' r : Int} (h : o ≤ o') :
    item_match o r ≤ item_match o' r := by
  unfold item_match
  by_cases h1 : r ≤ o
  · rw [if_pos h1, if_pos (h1.trans h)]
  · rw [if_neg h1]
    by_cases h2 : r ≤ o'
    · rw [if_pos h2]
      split_ifs with h3
      · rw [div_le_one (by exact_mod_cast h3)]
        exact_mod_cast (lt_of_not_le h1).le
      · exact zero_le_one
    · rw [if_neg h2]
      split_ifs with h3
      · exact (div_le_div_iff_of_pos_right (by exact_mod_cast h3)).mpr (by exact_mod_cast h)
      · exact le_refl 0

lemma bucketMatchSum_mono {fr off off' : FlatMap} (sel : FlatKey → Bool)
    (hfr : ∀ p ∈ fr, 0 ≤ p.2)
    (hpt : ∀ j, getOff off j ≤ getOff off' j) :
    bucketMatchSum fr off sel ≤ bucketMatchSum fr off' sel := by
  apply List.sum_le_sum
  intro p hp
  have hp2 : (0 : ℚ) ≤ (p.2 : ℚ) := by
    exact_mod_cast hfr p (List.mem_of_mem_filter hp)
  exact mul_le_mul_of_nonneg_right (item_match_mono (hpt p.1)) hp2

lemma bucketRatio_mono {fr off off' : FlatMap} (sel : FlatKey → Bool)
    (hfr : ∀ p ∈ fr, 0 ≤ p.2)
    (hpt : ∀ j, getOff off j ≤ getOff off' j) :
    bucketRatio fr off sel ≤ bucketRatio fr off' sel := by
  unfold bucketRatio
  split
  · exact (div_le_div_iff_of_pos_right (by exact_mod_cast ‹0 < bucketTotal fr sel›)).mpr
      (bucketMatchSum_mono sel hfr hpt)
  · exact bucketMatchSum_mono sel hfr hpt

lemma matched_items_mono {fr off off' : FlatMap}
    (hpt : ∀ j, getOff off j ≤ getOff off' j) :
    matched_items fr off ≤ matched_items fr off' :=
  List.sum_le_sum fun p _ => min_le_min (hpt p.1) (le_refl p.2)

lemma overall_match_mono {fr off off' : FlatMap}
    (hpt : ∀ j, getOff off j ≤ getOff off' j) (total : Int) :
    overall_match fr off total ≤ overall_match fr off' total := by
  unfold overall_match
  split
  · exact (div_le_div_iff_of_pos_right (by exact_mod_cast ‹0 < total›)).mpr
      (by exact_mod_cast matched_items_mono hpt)
  · exact le_refl 0

lemma flatten_total_zero {u : UserRequirement}
    (h : (flatten_requirements u).2 = 0) : (flatten_requirements u).1 = [] := by
  have hpos := flatten_requirements_pos u
  rw [flatten_requirements_total] at h
  rcases hfr : (flatten_requirements u).1 with _ | ⟨p, rest⟩
  · rfl
  · exfalso
    rw [hfr] at h hpos
    have h1 : 0 < p.2 := hpos p (by simp)
    have h2 : 0 ≤ (rest.map Prod.snd).sum := by
      apply List.sum_nonneg
      intro x hx
      simp only [List.mem_map] at hx
      obtain ⟨q, hq, rfl⟩ := hx
      exact (hpos q (by simp [hq])).le
    simp only [List.map_cons, List.sum_cons] at h
    omega

/-- The concrete requirement of spec §8:
`{Mains: {Indian: {Curry: {Paneer: 10}}}}`. -/
def sampleReq : UserRequirement :=
  ⟨[("Mains", ⟨"Mains",
    [("Indian", ⟨"Indian",
      [("Curry", ⟨"Curry", [("Paneer", 10)]⟩)]⟩)]⟩)]⟩

/-- The concrete offering of spec §8 with `Paneer: 6`. -/
def samplePkg6 : RestaurantPackage :=
  ⟨"r6", "Pack6",
   [("Mains", ⟨"Mains",
     [("Indian", ⟨"Indian",
       [("Curry", ⟨"Curry", [("Paneer", 6)]⟩)]⟩)]⟩)],
   100, 4, "p6", "v1"⟩

/-- The concrete offering of spec §8 with `Paneer: 15`. -/
def samplePkg15 : RestaurantPackage :=
  ⟨"r15", "Pack15",
   [("Mains", ⟨"Mains",
     [("Indian", ⟨"Indian",
       [("Curry", ⟨"Curry", [("Paneer", 15)]⟩)]⟩)]⟩)],
   100, 4, "p15", "v1"⟩

/-- **C1 (amended).** For every requirement and offering, the overall ratio
computed by `calculate_match` lies in `[0,1]`, and — provided the total
requested quantity is positive — it equals `1` iff every flat key of the
requirement has offering quantity at least the requested quantity.  (The
original claim states the equivalence without the positivity proviso;
`c1_overall_ratio_counterexample` refutes that on an empty requirement,
where the right side holds vacuously but the guarded ratio is `0`.) -/
theorem c1_overall_ratio_bounds (u : UserRequirement) (r : RestaurantPackage) :
    0 ≤ (calculate_match (flatten_requirements u).1 (flatten_restaurant r)
          (flatten_requirements u).2).overall_match ∧
    (calculate_match (flatten_requirements u).1 (flatten_restaurant r)
          (flatten_requirements u).2).overall_match ≤ 1 ∧
    (0 < (flatten_requirements u).2 →
      ((calculate_match (flatten_requirements u).1 (flatten_restaurant r)
            (flatten_requirements u).2).overall_match = 1 ↔
        ∀ p ∈ (flatten_requirements u).1,
          p.2 ≤ getOff (flatten_restaurant r) p.1)) := by
  have hfr : ∀ p ∈ (flatten_requirements u).1, 0 ≤ p.2 :=
    fun p hp => (flatten_requirements_pos u p hp).le
  have hoff : ∀ p ∈ flatten_restaurant r, 0 ≤ p.2 :=
    fun p hp => (flatten_restaurant_pos r p hp).le
  rw [calculate_match_overall, flatten_requirements_total]
  exact ⟨overall_match_nonneg hoff hfr _, overall_match_le_one,
    fun hpos => overall_match_eq_one_iff hpos⟩

/-- **C1, counterexample to the claim as stated.** On the empty requirement,
every flattened requirement key (vacuously) has sufficient offering quantity,
yet the overall ratio is `0`, not `1`: the claimed equivalence needs a
positive requested total. -/
theorem c1_overall_ratio_counterexample :
    (∀ p ∈ (flatten_requirements ⟨[]⟩).1,
        p.2 ≤ getOff (flatten_restaurant samplePkg6) p.1) ∧
    (calculate_match (flatten_requirements ⟨[]⟩).1
        (flatten_restaurant samplePkg6)
        (flatten_requirements ⟨[]⟩).2).overall_match ≠ 1 := by
  constructor
  · intro p hp
    simp [flatten_requirements] at hp
  · decide

/-- Witness for `c1_overall_ratio_bounds`: the spec §8 scenario with 10
Paneer requested and 15 offered has a positive requested total, and the
equivalence is delivered by the theorem at that input. -/
theorem c1_overall_ratio_bounds_witness :
    (calculate_match (flatten_requirements sampleReq).1
        (flatten_restaurant samplePkg15)
        (flatten_requirements sampleReq).2).overall_match = 1 ↔
      ∀ p ∈ (flatten_requirements sampleReq).1,
        p.2 ≤ getOff (flatten_restaurant samplePkg15) p.1 :=
  (c1_overall_ratio_bounds sampleReq samplePkg15).2.2 (by decide)

/-- **C2, counterexample to the claim as stated.** With component names that
contain the separator bar, two distinct 4-tuples are joined into the same
composite key, so flattening is not injective "for all component names". -/
theorem c2_flatten_key_counterexample :
    Flatten.joinKey ['a', '|', 'b'] ['c'] ['d'] ['e'] =
      Flatten.joinKey ['a'] ['b', '|', 'c'] ['d'] ['e'] ∧
    (['a', '|', 'b'] : List Char) ≠ ['a'] := by
  exact ⟨rfl, by decide⟩

/-- **C2 (amended).** Provided no component name contains the separator bar,
the composite key decomposes back into exactly the four components used to
build it, and two distinct 4-tuples never map to the same composite key. -/
theorem c2_flatten_key_roundtrip
    (cat cui sub it cat2 cui2 sub2 it2 : List Char)
    (h1 : '|' ∉ cat) (h2 : '|' ∉ cui) (h3 : '|' ∉ sub) (h4 : '|' ∉ it)
    (h5 : '|' ∉ cat2) (h6 : '|' ∉ cui2) (h7 : '|' ∉ sub2) (h8 : '|' ∉ it2) :
    Flatten.splitBar (Flatten.joinKey cat cui sub it) = [cat, cui, sub, it] ∧
    (Flatten.joinKey cat cui sub it = Flatten.joinKey cat2 cui2 sub2 it2 →
      cat = cat2 ∧ cui = cui2 ∧ sub = sub2 ∧ it = it2) := by
  refine ⟨Flatten.splitBar_joinKey h1 h2 h3 h4, fun heq => ?_⟩
  have hlist : ([cat2, cui2, sub2, it2] : List (List Char)) =
      [cat, cui, sub, it] := by
    rw [← Flatten.splitBar_joinKey h5 h6 h7 h8, ← heq,
      Flatten.splitBar_joinKey h1 h2 h3 h4]
  simp only [List.cons.injEq, and_true] at hlist
  exact ⟨hlist.1.symm, hlist.2.1.symm, hlist.2.2.1.symm, hlist.2.2.2.symm⟩

/-- Witness for `c2_flatten_key_roundtrip` at concrete bar-free names. -/
theorem c2_flatten_key_roundtrip_witness :
    Flatten.splitBar (Flatten.joinKey ['a'] ['b'] ['c'] ['d']) =
      [['a'], ['b'], ['c'], ['d']] :=
  (c2_flatten_key_roundtrip ['a'] ['b'] ['c'] ['d'] ['a'] ['b'] ['c'] ['d']
    (by decide) (by decide) (by decide) (by decide)
    (by decide) (by decide) (by decide) (by decide)).1

/-- **C4.** Increasing the offered quantity at a single flat key — holding
every other key fixed — never decreases the overall ratio nor any category,
category-cuisine, or category-cuisine-subcategory aggregation ratio. -/
theorem c4_monotonicity (u : UserRequirement) (off off2 : FlatMap)
    (k : FlatKey) (hk : getOff off k ≤ getOff off2 k)
    (helse : ∀ j, j ≠ k → getOff off2 j = getOff off j) :
    overall_match (flatten_requirements u).1 off (flatten_requirements u).2 ≤
      overall_match (flatten_requirements u).1 off2
        (flatten_requirements u).2 ∧
    (∀ c, bucketRatio (flatten_requirements u).1 off (catSel c) ≤
      bucketRatio (flatten_requirements u).1 off2 (catSel c)) ∧
    (∀ c q, bucketRatio (flatten_requirements u).1 off (cuiSel c q) ≤
      bucketRatio (flatten_requirements u).1 off2 (cuiSel c q)) ∧
    (∀ c q s, bucketRatio (flatten_requirements u).1 off (subSel c q s) ≤
      bucketRatio (flatten_requirements u).1 off2 (subSel c q s)) := by
  have hpt : ∀ j, getOff off j ≤ getOff off2 j := by
    intro j
    by_cases hj : j = k
    · subst hj
      exact hk
    · rw [helse j hj]
  have hfr : ∀ p ∈ (flatten_requirements u).1, 0 ≤ p.2 :=
    fun p hp => (flatten_requirements_pos u p hp).le
  exact ⟨overall_match_mono hpt _,
    fun c => bucketRatio_mono _ hfr hpt,
    fun c q => bucketRatio_mono _ hfr hpt,
    fun c q s => bucketRatio_mono _ hfr hpt⟩

/-- Witness for `c4_monotonicity`: raising the offered Paneer quantity from
6 to 15 at its key does not decrease the overall ratio. -/
theorem c4_monotonicity_witness :
    overall_match (flatten_requirements sampleReq).1
        (flatten_restaurant samplePkg6) (flatten_requirements sampleReq).2 ≤
      overall_match (flatten_requirements sampleReq).1
        (flatten_restaurant samplePkg15) (flatten_requirements sampleReq).2 :=
  (c4_monotonicity sampleReq (flatten_restaurant samplePkg6)
    (flatten_restaurant samplePkg15) ⟨"Mains", "Indian", "Curry", "Paneer"⟩
    (by decide)
    (by
      intro j hj
      have h6 : flatten_restaurant samplePkg6 =
          [(⟨"Mains", "Indian", "Curry", "Paneer"⟩, 6)] := by decide
      have h15 : flatten_restaurant samplePkg15 =
          [(⟨"Mains", "Indian", "Curry", "Paneer"⟩, 15)] := by decide
      have hne : (⟨"Mains", "Indian", "Curry", "Paneer"⟩ : FlatKey) ≠ j :=
        fun h => hj h.symm
      rw [h6, h15]
      simp [getOff, hne])).1

/-- **C8.** A requirement whose flattened total is zero (in particular the
empty requirement tree) scores every package with overall ratio `0` — the
division is explicitly guarded — and produces no unmet-requirement
entries. -/
theorem c8_empty_requirement (u : UserRequirement)
    (h : (flatten_requirements u).2 = 0)
    (pkgs : List RestaurantPackage) :
    ∀ res ∈ score_restaurants u pkgs,
      res.overall_match = 0 ∧ res.unmet_requirements = [] := by
  intro res hres
  have hfr := flatten_total_zero h
  simp only [score_restaurants, List.mem_map, List.mem_insertionSort,
    all_matches] at hres
  obtain ⟨t, ht, rfl⟩ := hres
  obtain ⟨r, _, rfl⟩ := ht
  constructor
  · show (calculate_match (flatten_requirements u).1 _
      (flatten_requirements u).2).overall_match = 0
    rw [calculate_match_overall, h]
    simp [overall_match]
  · show (calculate_match (flatten_requirements u).1 _
      (flatten_requirements u).2).unmet_requirements = []
    rw [calculate_match_unmet, hfr]
    rfl

/-- Witness for `c8_empty_requirement`: the empty requirement tree scored
against a non-trivial package produces the zero-ratio result. -/
theorem c8_empty_requirement_witness :
    (⟨"r6", "Pack6", 0, [], [], 100, 4, "p6", "v1", []⟩ :
        MatchResult).overall_match = 0 ∧
    (⟨"r6", "Pack6", 0, [], [], 100, 4, "p6", "v1", []⟩ :
        MatchResult).unmet_requirements = [] :=
  c8_empty_requirement ⟨[]⟩ (by decide) [samplePkg6]
    ⟨"r6", "Pack6", 0, [], [], 100, 4, "p6", "v1", []⟩ (by decide)

lemma filter_orderedInsert_key {α : Type} (key : α → ℚ) (x : α) (l : List α)
    (q : ℚ) :
    (l.orderedInsert (fun a b => key b ≤ key a) x).filter
        (fun y => key y = q) =
      if key x = q then x :: l.filter (fun y => key y = q)
      else l.filter (fun y => key y = q) := by
  induction l with
  | nil =>
    simp only [List.orderedInsert_nil]
    by_cases h : key x = q <;> simp [List.filter_cons, h]
  | cons b t ih =>
    by_cases hr : key b ≤ key x
    · simp only [List.orderedInsert, if_pos hr]
      by_cases h : key x = q <;> simp [List.filter_cons, h]
    · have hlt : key x < key b := lt_of_not_le hr
      simp only [List.orderedInsert, if_neg hr, List.filter_cons, ih]
      by_cases h : key x = q <;> by_cases hb : key b = q
      · exfalso
        rw [h, hb] at hlt
        exact lt_irrefl q hlt
      · simp [h, hb, List.filter_cons]
      · simp [h, hb, List.filter_cons]
      · simp [h, hb, List.filter_cons]

lemma filter_insertionSort_key {α : Type} (key : α → ℚ) (l : List α) (q : ℚ) :
    (l.insertionSort (fun a b => key b ≤ key a)).filter (fun y => key y = q) =
      l.filter (fun y => key y = q) := by
  induction l with
  | nil => rfl
  | cons a t ih =>
    simp only [List.insertionSort]
    rw [filter_orderedInsert_key, ih, List.filter_cons]
    by_cases h : key a = q <;> simp [h]

lemma sorted_insertionSort_key {α : Type} (key : α → ℚ) (l : List α) :
    (l.insertionSort (fun a b => key b ≤ key a)).Pairwise
      (fun a b => key b ≤ key a) := by
  haveI : IsTotal α (fun a b => key b ≤ key a) :=
    ⟨fun a b => le_total (key b) (key a)⟩
  haveI : IsTrans α (fun a b => key b ≤ key a) :=
    ⟨fun a b c h1 h2 => le_trans h2 h1⟩
  exact List.sorted_insertionSort _ l

lemma all_matches_key (u : UserRequirement) (pkgs : List RestaurantPackage) :
    ∀ t ∈ all_matches u pkgs, t.1 = t.2.2.overall_match := by
  intro t ht
  simp only [all_matches, List.mem_map] at ht
  obtain ⟨r, _, rfl⟩ := ht
  rfl

lemma getOff_eq_zero {off : FlatMap} {k : FlatKey}
    (h : k ∉ off.map Prod.fst) : getOff off k = 0 := by
  induction off with
  | nil => rfl
  | cons p rest ih =>
    simp only [List.map_cons, List.mem_cons] at h
    push_neg at h
    simp only [getOff]
    rw [if_neg (fun hq => h.1 hq.symm)]  -- placeholder direction check
    exact ih h.2

lemma sum_map_add_int {α : Type} (l : List α) (f g : α → Int) :
    (l.map (fun x => f x + g x)).sum = (l.map f).sum + (l.map g).sum := by
  induction l with
  | nil => simp
  | cons a t ih =>
    simp only [List.map_cons, List.sum_cons, ih]
    omega

lemma sum_indicator {ks : List FlatKey} (hnd : ks.Nodup) (a : FlatKey)
    (v : Int) :
    (ks.map (fun k => if a = k then v else 0)).sum =
      if a ∈ ks then v else 0 := by
  induction ks with
  | nil => simp
  | cons k t ih =>
    simp only [List.map_cons, List.sum_cons, List.mem_cons]
    rcases List.nodup_cons.1 hnd with ⟨hk, ht⟩
    by_cases hak : a = k
    · subst hak
      rw [if_pos rfl, if_pos (Or.inl rfl), ih ht, if_neg hk]
      omega
    · rw [if_neg hak, ih ht]
      by_cases hat : a ∈ t
      · rw [if_pos hat, if_pos (Or.inr hat)]
        omega
      · rw [if_neg hat, if_neg (by tauto)]
        omega

lemma sum_getOff_eq {ks : List FlatKey} {off : FlatMap} (hks : ks.Nodup)
    (hoff : (off.map Prod.fst).Nodup) :
    (ks.map (getOff off)).sum =
      ((off.filter (fun p => p.1 ∈ ks)).map Prod.snd).sum := by
  induction off with
  | nil => simp [getOff]
  | cons p rest ih =>
    simp only [List.map_cons, List.nodup_cons] at hoff
    have hterm : ks.map (getOff (p :: rest)) =
        ks.map (fun k => getOff rest k + if p.1 = k then p.2 else 0) := by
      apply List.map_congr_left
      intro k _
      simp only [getOff]
      by_cases hpk : p.1 = k
      · rw [if_pos hpk, if_pos hpk, ← hpk, getOff_eq_zero hoff.1]
        omega
      · rw [if_neg hpk, if_neg hpk]
        omega
    rw [hterm, sum_map_add_int, ih hoff.2, sum_indicator hks p.1 p.2,
      List.filter_cons]
    by_cases hmem : p.1 ∈ ks
    · have hc : decide (p.1 ∈ ks) = true := by simp [hmem]
      rw [hc, if_pos rfl, if_pos hmem]
      simp only [List.map_cons, List.sum_cons]
      omega
    · have hc : decide (p.1 ∈ ks) = false := by simp [hmem]
      rw [hc, if_neg Bool.false_ne_true, if_neg hmem]
      omega

lemma sum_filter_split {α : Type} (l : List α) (R S : α → Bool)
    (f : α → Int) :
    ((l.filter (fun x => R x && S x)).map f).sum +
        ((l.filter (fun x => R x && !S x)).map f).sum =
      ((l.filter R).map f).sum := by
  induction l with
  | nil => simp
  | cons a t ih =>
    cases hR : R a <;> cases hS : S a <;>
      simp [List.filter_cons, hR, hS] <;> omega

lemma mem_dedupFirst {α : Type} [DecidableEq α] {a : α} {l : List α} :
    a ∈ dedupFirst l ↔ a ∈ l := by
  induction l with
  | nil => simp [dedupFirst]
  | cons x xs ih =>
    simp only [dedupFirst, List.mem_cons]
    constructor
    · rintro (rfl | h)
      · exact Or.inl rfl
      · exact Or.inr (ih.1 (List.mem_of_mem_filter h))
    · rintro (rfl | h)
      · exact Or.inl rfl
      · by_cases hax : a = x
        · exact Or.inl hax
        · refine Or.inr (List.mem_filter.2 ⟨ih.2 h, ?_⟩)
          simpa using hax

/-- Under the dict invariants, the accumulated
`category_restaurant_totals[c]` is exactly the offering total over all flat
keys whose category is `c` — including offering keys with no corresponding
requirement key. -/
lemma bucketRestTotal_eq {fr off : FlatMap} (hfr : IsFlatMap fr)
    (hoff : IsFlatMap off) (c : String) :
    bucketRestTotal fr off (catSel c) =
      ((off.filter (fun p => catSel c p.1)).map Prod.snd).sum := by
  obtain ⟨hfrnd, _⟩ := hfr
  obtain ⟨hoffnd, hoffpos⟩ := hoff
  unfold bucketRestTotal
  have hks : ((fr.filter (fun p => catSel c p.1)).map Prod.fst).Nodup :=
    ((List.filter_sublist fr).map Prod.fst).nodup hfrnd
  have hA : ((fr.filter (fun p => catSel c p.1)).map
        (fun p => getOff off p.1)).sum =
      ((off.filter (fun p =>
        p.1 ∈ (fr.filter (fun q => catSel c q.1)).map Prod.fst)).map
          Prod.snd).sum := by
    rw [← sum_getOff_eq hks hoffnd, List.map_map]
    rfl
  rw [hA]
  have hB : off.filter (fun p =>
        catSel c p.1 ∧ p.1 ∉ fr.map Prod.fst ∧ 0 < p.2) =
      off.filter (fun p => catSel c p.1 ∧ p.1 ∉ fr.map Prod.fst) := by
    apply List.filter_congr
    intro p hp
    simp [hoffpos p hp]
  rw [hB]
  have hmemks : ∀ p ∈ off,
      (decide (p.1 ∈ (fr.filter (fun q => catSel c q.1)).map Prod.fst)) =
        (catSel c p.1 && decide (p.1 ∈ fr.map Prod.fst)) := by
    intro p _
    rcases hcat : catSel c p.1 with _ | _
    · simp only [Bool.false_and]
      simp only [decide_eq_false_iff_not, List.mem_map, List.mem_filter]
      rintro ⟨q, ⟨hq1, hq2⟩, hq3⟩
      rw [← hq3] at hcat
      rw [hq2] at hcat
      simp at hcat
    · simp only [Bool.true_and, decide_eq_decide, List.mem_map,
        List.mem_filter]
      constructor
      · rintro ⟨q, ⟨hq1, _⟩, hq3⟩
        exact ⟨q, hq1, hq3⟩
      · rintro ⟨q, hq1, hq3⟩
        refine ⟨q, ⟨hq1, ?_⟩, hq3⟩
        rw [hq3, hcat]
  have hC : off.filter (fun p =>
        p.1 ∈ (fr.filter (fun q => catSel c q.1)).map Prod.fst) =
      off.filter (fun p =>
        catSel c p.1 && decide (p.1 ∈ fr.map Prod.fst)) :=
    List.filter_congr hmemks
  have hD : off.filter (fun p => catSel c p.1 ∧ p.1 ∉ fr.map Prod.fst) =
      off.filter (fun p =>
        catSel c p.1 && !(decide (p.1 ∈ fr.map Prod.fst))) := by
    apply List.filter_congr
    intro p _
    simp
  rw [hC, hD]
  exact sum_filter_split off (fun p => catSel c p.1)
    (fun p => decide (p.1 ∈ fr.map Prod.fst)) Prod.snd

lemma mem_over_100 {fr off : FlatMap} {c : String} {e : OverFulfillment} :
    (c, e) ∈ over_100_categories fr off ↔
      c ∈ reqCategories fr ∧
      0 < bucketTotal fr (catSel c) ∧
      bucketTotal fr (catSel c) < bucketRestTotal fr off (catSel c) ∧
      e = ⟨c, bucketTotal fr (catSel c), bucketRestTotal fr off (catSel c),
           round2 ((bucketRestTotal fr off (catSel c) : ℚ) /
             (bucketTotal fr (catSel c) : ℚ) * 100),
           bucketRestTotal fr off (catSel c) - bucketTotal fr (catSel c)⟩ := by
  unfold over_100_categories
  rw [List.mem_filterMap]
  constructor
  · rintro ⟨c', hc', hsome⟩
    simp only at hsome
    split at hsome
    case isTrue hcond =>
      have h := Option.some.inj hsome
      rw [Prod.mk.injEq] at h
      obtain ⟨h1, h2⟩ := h
      subst h1
      subst h2
      exact ⟨hc', hcond.1, hcond.2, rfl⟩
    case isFalse => cases hsome
  · rintro ⟨hcmem, h1, h2, rfl⟩
    refine ⟨c, hcmem, ?_⟩
    simp only
    rw [if_pos ⟨h1, h2⟩]

lemma bucketTotal_pos_mem {fr : FlatMap} {c : String}
    (h : 0 < bucketTotal fr (catSel c)) :
    c ∈ fr.map (fun p => p.1.category) := by
  by_contra hc
  have hnil : fr.filter (fun p => catSel c p.1) = [] := by
    apply List.filter_eq_nil_iff.2
    intro p hp
    simp only [catSel, decide_eq_true_eq]
    intro hcat
    exact hc (List.mem_map.2 ⟨p, hp, hcat⟩)
  unfold bucketTotal at h
  rw [hnil] at h
  simp at h

/-- **C3 (amended).** The over-fulfilment pass emits an entry for a
top-level category exactly when its requested total is positive and the
offered total — summed over *all* offering flat keys under that category,
matched by a requirement or not — strictly exceeds it; the entry carries
percentage `offered/requested × 100` rounded to two decimals, and surplus
`offered − requested`; and every emitted key is a top-level category name of
the requirement (never a cuisine- or subcategory-level key, never a category
absent from the requirement).  (The original claim states the percentage
unrounded; `c3_percentage_counterexample` refutes that.) -/
theorem c3_over_fulfillment (fr off : FlatMap)
    (hfr : IsFlatMap fr) (hoff : IsFlatMap off) :
    (∀ c : String,
      ((∃ e, (c, e) ∈ over_100_categories fr off) ↔
        (0 < bucketTotal fr (catSel c) ∧
          bucketTotal fr (catSel c) <
            ((off.filter (fun p => catSel c p.1)).map Prod.snd).sum))) ∧
    (∀ c e, (c, e) ∈ over_100_categories fr off →
      e.user_requested = bucketTotal fr (catSel c) ∧
      e.restaurant_offers =
        ((off.filter (fun p => catSel c p.1)).map Prod.snd).sum ∧
      e.match_percentage =
        round2 ((((off.filter (fun p => catSel c p.1)).map Prod.snd).sum : ℚ) /
          (bucketTotal fr (catSel c) : ℚ) * 100) ∧
      e.additional_items =
        ((off.filter (fun p => catSel c p.1)).map Prod.snd).sum -
          bucketTotal fr (catSel c)) ∧
    (∀ ce ∈ over_100_categories fr off,
      ce.1 ∈ fr.map (fun p => p.1.category)) := by
  have hrt := fun c => bucketRestTotal_eq hfr hoff c
  refine ⟨fun c => ?_, fun c e hmem => ?_, fun ce hmem => ?_⟩
  · constructor
    · rintro ⟨e, hmem⟩
      rw [mem_over_100] at hmem
      exact ⟨hmem.2.1, by rw [← hrt c]; exact hmem.2.2.1⟩
    · rintro ⟨h1, h2⟩
      rw [← hrt c] at h2
      exact ⟨_, mem_over_100.2
        ⟨mem_dedupFirst.2 (bucketTotal_pos_mem h1), h1, h2, rfl⟩⟩
  · rw [mem_over_100] at hmem
    obtain ⟨_, _, _, rfl⟩ := hmem
    exact ⟨rfl, (hrt c).symm ▸ rfl, by rw [← hrt c], by rw [← hrt c]⟩
  · rcases ce with ⟨c, e⟩
    rw [mem_over_100] at hmem
    exact bucketTotal_pos_mem hmem.2.1

set_option maxRecDepth 4000 in
/-- **C3, counterexample to the claim as stated.** Requesting 3 and offering
4 of one item emits an over-fulfilment entry whose stored percentage is the
two-decimal rounding `133.33`, not the exact `400/3` the claim asserts. -/
theorem c3_percentage_counterexample :
    (over_100_categories
        [(⟨"Mains", "Indian", "Curry", "Paneer"⟩, 3)]
        [(⟨"Mains", "Indian", "Curry", "Paneer"⟩, 4)]).map
      (fun ce => ce.2.match_percentage) = [13333/100] ∧
    (13333/100 : ℚ) ≠ (4 : ℚ) / 3 * 100 := by
  have hfloor : ⌊(40000 : ℚ)/3⌋ = 13333 := by
    rw [Int.floor_eq_iff]
    norm_num
  have hrhe : roundHalfEven ((400 : ℚ)/3 * 100) = 13333 := by
    have h1 : ((400 : ℚ)/3) * 100 = 40000/3 := by norm_num
    unfold roundHalfEven
    rw [h1, hfloor]
    norm_num
  have hr2 : round2 ((400 : ℚ)/3) = 13333/100 := by
    unfold round2
    rw [hrhe]
    norm_num
  constructor
  · have hov : (over_100_categories
        [(⟨"Mains", "Indian", "Curry", "Paneer"⟩, 3)]
        [(⟨"Mains", "Indian", "Curry", "Paneer"⟩, 4)]).map
          (fun ce => ce.2.match_percentage) = [round2 ((400 : ℚ)/3)] := by
      norm_num [over_100_categories, reqCategories, dedupFirst, bucketTotal,
        bucketRestTotal, getOff, catSel, List.filterMap_cons,
        List.filter_cons, List.sum_cons]
    rw [hov, hr2]
  · norm_num

/-- Witness for `c3_over_fulfillment` at the 3-requested/4-offered input. -/
theorem c3_over_fulfillment_witness :
    (∃ e, ("Mains", e) ∈ over_100_categories
        [(⟨"Mains", "Indian", "Curry", "Paneer"⟩, 3)]
        [(⟨"Mains", "Indian", "Curry", "Paneer"⟩, 4)]) ↔
      (0 < bucketTotal [(⟨"Mains", "Indian", "Curry", "Paneer"⟩, 3)]
          (catSel "Mains") ∧
        bucketTotal [(⟨"Mains", "Indian", "Curry", "Paneer"⟩, 3)]
            (catSel "Mains") <
          ((([(⟨"Mains", "Indian", "Curry", "Paneer"⟩, 4)] : FlatMap).filter
              (fun p => catSel "Mains" p.1)).map Prod.snd).sum) :=
  (c3_over_fulfillment
    [(⟨"Mains", "Indian", "Curry", "Paneer"⟩, 3)]
    [(⟨"Mains", "Indian", "Curry", "Paneer"⟩, 4)]
    ⟨by decide, by decide⟩ ⟨by decide, by decide⟩).1 "Mains"

/-- Package `A` of spec §8's stability scenario: ratio `0.5` against
`sampleReq`. -/
def samplePkgA : RestaurantPackage :=
  ⟨"A", "PackA",
   [("Mains", ⟨"Mains",
     [("Indian", ⟨"Indian",
       [("Curry", ⟨"Curry", [("Paneer", 5)]⟩)]⟩)]⟩)],
   100, 4, "pA", "v1"⟩

/-- Package `B`: ratio `0.5` against `sampleReq`. -/
def samplePkgB : RestaurantPackage :=
  ⟨"B", "PackB",
   [("Mains", ⟨"Mains",
     [("Indian", ⟨"Indian",
       [("Curry", ⟨"Curry", [("Paneer", 5)]⟩)]⟩)]⟩)],
   100, 4, "pB", "v1"⟩

/-- Package `C`: ratio `0.9` against `sampleReq`. -/
def samplePkgC : RestaurantPackage :=
  ⟨"C", "PackC",
   [("Mains", ⟨"Mains",
     [("Indian", ⟨"Indian",
       [("Curry", ⟨"Curry", [("Paneer", 9)]⟩)]⟩)]⟩)],
   100, 4, "pC", "v2"⟩

/-- **C7.** `score_restaurants` returns the per-package results sorted by
overall ratio descending, and stably: for every ratio value, the results
carrying it appear exactly as in the supplied package order; in particular
packages `[A(0.5), B(0.5), C(0.9)]` come out as `[C, A, B]`. -/
theorem c7_ranking_sorted_stable (user_req : UserRequirement)
    (pkgs : List RestaurantPackage) :
    ((score_restaurants user_req pkgs).map MatchResult.overall_match).Pairwise
      (fun a b => b ≤ a) ∧
    (∀ q : ℚ,
      (score_restaurants user_req pkgs).filter
          (fun res => res.overall_match = q) =
        ((all_matches user_req pkgs).map (fun t => t.2.2)).filter
          (fun res => res.overall_match = q)) ∧
    (score_restaurants sampleReq [samplePkgA, samplePkgB, samplePkgC]).map
        MatchResult.restaurant_id = ["C", "A", "B"] := by
  have hkey : ∀ t ∈ (all_matches user_req pkgs).insertionSort
      (fun a b => b.1 ≤ a.1), t.1 = t.2.2.overall_match :=
    fun t ht =>
      all_matches_key user_req pkgs t ((List.mem_insertionSort _).1 ht)
  refine ⟨?_, ?_, by
    norm_num [score_restaurants, all_matches, match_triple, calculate_match,
      overall_match, matched_items, getOff, item_match, flatten_requirements,
      flatten_restaurant, sampleReq, samplePkgA, samplePkgB, samplePkgC,
      List.insertionSort, List.orderedInsert, List.filterMap_cons,
      List.flatMap_cons, List.flatMap_nil, List.sum_cons, List.sum_nil,
      min_def]⟩
  · unfold score_restaurants
    rw [List.map_map]
    have hmaps : ((all_matches user_req pkgs).insertionSort
          (fun a b => b.1 ≤ a.1)).map
            (MatchResult.overall_match ∘ fun t => t.2.2) =
        ((all_matches user_req pkgs).insertionSort
          (fun a b => b.1 ≤ a.1)).map (fun t => t.1) := by
      apply List.map_congr_left
      intro t ht
      exact (hkey t ht).symm
    rw [hmaps, List.pairwise_map]
    exact sorted_insertionSort_key (fun t => t.1) (all_matches user_req pkgs)
  · intro q
    unfold score_restaurants
    rw [List.filter_map, List.filter_map]
    have h1 : ((all_matches user_req pkgs).insertionSort
          (fun a b => b.1 ≤ a.1)).filter
            ((fun res => decide (res.overall_match = q)) ∘ fun t => t.2.2) =
        ((all_matches user_req pkgs).insertionSort
          (fun a b => b.1 ≤ a.1)).filter (fun t => t.1 = q) := by
      apply List.filter_congr
      intro t ht
      simp only [Function.comp_apply, decide_eq_decide]
      rw [hkey t ht]
    have h2 : (all_matches user_req pkgs).filter
          ((fun res => decide (res.overall_match = q)) ∘ fun t => t.2.2) =
        (all_matches user_req pkgs).filter (fun t => t.1 = q) := by
      apply List.filter_congr
      intro t ht
      simp only [Function.comp_apply, decide_eq_decide]
      rw [all_matches_key user_req pkgs t ht]
    rw [h1, h2, filter_insertionSort_key
      (fun t : ℚ × String × MatchResult => t.1) (all_matches user_req pkgs) q]

end App

